import Mathlib

/-!
# Breathing PWM ramp generator (`src/breathing_pwm.c`)

A shallow embedding of the timer interrupt handler `Timer0` and of the part of
`init()` that sets the two compare registers, followed by theorems about the
run of the handler from the startup state.

Modelling conventions.

* `TA0CCR0` and `TA0CCR1` are 16-bit timer registers: they are natural numbers
  and every arithmetic update of `TA0CCR1` is reduced modulo `2 ^ 16`.
* `dir` and `div` are the handler's `static int` variables; `int` has 16 bits
  on the MSP430.  `dir` is only ever assigned the constants `DOWN_CNT` and
  `UP_CNT`.  `div++` is modelled by `incInt16`: the value after `INT_MAX = 32767`
  is `-32768`.  The increment is only executed when `div < DIV_INTERVAL`, so it
  never wraps when `DIV_INTERVAL ≤ INT_MAX`, as in the compiled configuration.
* The other registers written by `init()` (`WDTCTL`, `P1DIR`, `P1SEL`,
  `TA0CTL`, `TA0CCTL1`) are never read by the handler and their bit masks come
  from `msp430.h`; they are left out of the state.
-/

namespace BreathingPwm

/-! ## Constants of the source -/

/-- Source: `#define DIV_INTERVAL 2000`. -/
def DIV_INTERVAL : Int := 2000

/-- Source: `#define STEP 1`. -/
def STEP : Nat := 1

/-- Source: `#define LOWEST_PWM 100`. -/
def LOWEST_PWM : Nat := 100

/-- Source: `#define HIGHEST_PWM 1000`. -/
def HIGHEST_PWM : Nat := 1000

/-- Source: `#define DOWN_CNT 1`. -/
def DOWN_CNT : Int := 1

/-- Source: `#define UP_CNT 2`. -/
def UP_CNT : Int := 2

/-- Number of values of a 16-bit timer register. -/
def REG_MOD : Nat := 65536

/-- Largest value of the 16-bit `int` of the MSP430. -/
def INT_MAX : Int := 32767

/-- The increment `x++` of a 16-bit `int`: it wraps from `INT_MAX` to
`-32768`. -/
def incInt16 (x : Int) : Int := if x + 1 > INT_MAX then x + 1 - 65536 else x + 1

/-! ## Data model -/

/-- The four tuning constants of the handler, taken as parameters. -/
structure Config where
  /-- Value of `DIV_INTERVAL`. -/
  divInterval : Int
  /-- Value of `STEP`. -/
  step : Nat
  /-- Value of `LOWEST_PWM`. -/
  lowest : Nat
  /-- Value of `HIGHEST_PWM`. -/
  highest : Nat
deriving DecidableEq

/-- The configuration compiled into the firmware. -/
def compiled : Config :=
  { divInterval := DIV_INTERVAL, step := STEP, lowest := LOWEST_PWM, highest := HIGHEST_PWM }

/-- Registers and static variables the ramp logic reads or writes. -/
structure State where
  /-- Timer period register (carrier period), written by `init()`. -/
  TA0CCR0 : Nat
  /-- Duty-cycle compare register. -/
  TA0CCR1 : Nat
  /-- Source: `static int dir` of `Timer0`. -/
  dir : Int
  /-- Source: `static int div` of `Timer0`. -/
  div : Int
deriving DecidableEq

/-! ## Operations -/

/-- Register part of `init()` with the constants as parameters:
`TA0CCR0 = HIGHEST_PWM; TA0CCR1 = LOWEST_PWM;`. -/
def initWith (c : Config) (s : State) : State :=
  { s with TA0CCR0 := c.highest % REG_MOD, TA0CCR1 := c.lowest % REG_MOD }

/-- Register part of `init()` as compiled. -/
def init (s : State) : State := initWith compiled s

/-- State at reset: both compare registers are cleared, the statics hold their
initialisers `dir = DOWN_CNT` and `div = 0`. -/
def powerOn : State := { TA0CCR0 := 0, TA0CCR1 := 0, dir := DOWN_CNT, div := 0 }

/-- State in which the first interrupt is taken, for a given configuration. -/
def startupWith (c : Config) : State := initWith c powerOn

/-- State in which the first interrupt is taken: `init()` has run. -/
def startup : State := init powerOn

/-- The branch condition `div >= DIV_INTERVAL` of the handler: the invocation
taken in state `s` is a step tick. -/
def isStepTick (c : Config) (s : State) : Prop := s.div ≥ c.divInterval

instance (c : Config) (s : State) : Decidable (isStepTick c s) :=
  inferInstanceAs (Decidable (s.div ≥ c.divInterval))

/-- One invocation of the interrupt handler `Timer0`, constants as parameters.

```
if (div >= DIV_INTERVAL) {
    if (TA0CCR1 > LOWEST_PWM && dir == DOWN_CNT)        TA0CCR1 -= STEP;
    else if (TA0CCR1 <= HIGHEST_PWM && dir == UP_CNT)   TA0CCR1 += STEP;
    if (TA0CCR1 == LOWEST_PWM)  dir = UP_CNT;
    if (TA0CCR1 == HIGHEST_PWM) dir = DOWN_CNT;
    div = 0;
} else {
    div++;
}
```
-/
def Timer0With (c : Config) (s : State) : State :=
  if s.div ≥ c.divInterval then
    let ccr1 :=
      if s.TA0CCR1 > c.lowest ∧ s.dir = DOWN_CNT then
        (s.TA0CCR1 + (REG_MOD - c.step % REG_MOD)) % REG_MOD
      else if s.TA0CCR1 ≤ c.highest ∧ s.dir = UP_CNT then
        (s.TA0CCR1 + c.step) % REG_MOD
      else
        s.TA0CCR1
    let dir1 := if ccr1 = c.lowest then UP_CNT else s.dir
    let dir2 := if ccr1 = c.highest then DOWN_CNT else dir1
    { s with TA0CCR1 := ccr1, dir := dir2, div := 0 }
  else
    { s with div := incInt16 s.div }

/-- The interrupt handler `Timer0` as compiled. -/
def Timer0 (s : State) : State := Timer0With compiled s

/-- State after `n` invocations of the handler from `s`. -/
def runWith (c : Config) : Nat → State → State
  | 0, s => s
  | n + 1, s => runWith c n (Timer0With c s)

/-- State after `n` invocations of the compiled handler from `s`. -/
def run (n : Nat) (s : State) : State := runWith compiled n s

/-- Counter of step ticks: `acc` plus the number of step ticks among the next
`n` invocations from `s`. -/
def stepTicksFrom (c : Config) (acc : Nat) : Nat → State → Nat
  | 0, _ => acc
  | n + 1, s => stepTicksFrom c (if isStepTick c s then acc + 1 else acc) n (Timer0With c s)

/-- Number of step ticks among the first `n` invocations from `s`. -/
def stepTicksWith (c : Config) (n : Nat) (s : State) : Nat := stepTicksFrom c 0 n s

/-- Number of step ticks among the first `n` invocations of the compiled
handler from `s`. -/
def stepTicks (n : Nat) (s : State) : Nat := stepTicksWith compiled n s

/-! ## Closed form of the compiled run (specification-side functions) -/

/-- Triangle wave of period 1800 and height 900. -/
def tri (j : Nat) : Nat := if j ≤ 900 then j else 1800 - j

/-- Duty value once `k` step ticks have been executed from startup. -/
def dutyAfter (k : Nat) : Nat := if k = 0 then 100 else 100 + tri ((k - 1) % 1800)

/-- Direction once `k` step ticks have been executed from startup. -/
def dirAfter (k : Nat) : Int :=
  if k = 0 then DOWN_CNT else if (k - 1) % 1800 < 900 then UP_CNT else DOWN_CNT

/-- A configuration whose `STEP = 2` does not divide `HIGHEST - LOWEST = 3`. -/
def oddStepConfig : Config :=
  { divInterval := 2000, step := 2, lowest := 100, highest := 103 }

/-- A configuration whose `STEP = 9` divides `HIGHEST - LOWEST = 900`. -/
def nineStepConfig : Config :=
  { divInterval := 2000, step := 9, lowest := 100, highest := 1000 }

/-! ## The step rule in the words of the specification -/

/-- Duty value after a step tick as the specification's algorithm gives it
(step 2b): `dutyValue - STEP` if the direction is FALLING and
`dutyValue > LOWEST`, else `dutyValue + STEP` if the direction is RISING and
`dutyValue < HIGHEST`, else unchanged. -/
def specStepDuty (c : Config) (duty : Nat) (dir : Int) : Nat :=
  if dir = DOWN_CNT ∧ duty > c.lowest then duty - c.step
  else if dir = UP_CNT ∧ duty < c.highest then duty + c.step
  else duty

/-! ## The handler with the strict increment guard -/

/-- The handler with the increment guard written `TA0CCR1 < HIGHEST_PWM`, as in
step 2b of the specification, in place of the source's `TA0CCR1 <= HIGHEST_PWM`;
every other line is that of `Timer0With`. -/
def Timer0StrictWith (c : Config) (s : State) : State :=
  if s.div ≥ c.divInterval then
    let ccr1 :=
      if s.TA0CCR1 > c.lowest ∧ s.dir = DOWN_CNT then
        (s.TA0CCR1 + (REG_MOD - c.step % REG_MOD)) % REG_MOD
      else if s.TA0CCR1 < c.highest ∧ s.dir = UP_CNT then
        (s.TA0CCR1 + c.step) % REG_MOD
      else
        s.TA0CCR1
    let dir1 := if ccr1 = c.lowest then UP_CNT else s.dir
    let dir2 := if ccr1 = c.highest then DOWN_CNT else dir1
    { s with TA0CCR1 := ccr1, dir := dir2, div := 0 }
  else
    { s with div := incInt16 s.div }

/-- The strict-guard handler with the compiled constants. -/
def Timer0Strict (s : State) : State := Timer0StrictWith compiled s

/-- State after `n` invocations of the strict-guard handler from `s`. -/
def runStrict : Nat → State → State
  | 0, s => s
  | n + 1, s => runStrict n (Timer0Strict s)

/-! ## Timing figures of the source's comments -/

/-- Length of one ramp in ticks: the header comment asks for a ramp of 1.8 s
and states one timer interrupt per microsecond. -/
def rampDurationTicks : Nat := 1800000

/-- Number of invocations between two step ticks of a configuration: the
divisor counts from 0 up to `DIV_INTERVAL` and the next invocation steps. -/
def stepPeriod (c : Config) : Nat := c.divInterval.toNat + 1

/-! ## Unfolding the run -/

/-- Below `INT_MAX` the 16-bit increment is the plain one. -/
theorem incInt16_of_lt (x : Int) (h : x < INT_MAX) : incInt16 x = x + 1 := by
  unfold incInt16
  rw [if_neg (by omega)]

/-- Unfolding the run at its last invocation. -/
theorem runWith_succ (c : Config) (n : Nat) (s : State) :
    runWith c (n + 1) s = Timer0With c (runWith c n s) := by
  induction n generalizing s with
  | zero => rfl
  | succ m ih =>
    show runWith c (m + 1) (Timer0With c s) = _
    rw [ih]
    rfl

/-- A run of `m + n` invocations is a run of `m` followed by a run of `n`. -/
theorem runWith_add (c : Config) (m n : Nat) (s : State) :
    runWith c (m + n) s = runWith c n (runWith c m s) := by
  induction n with
  | zero => rfl
  | succ k ih => rw [← Nat.add_assoc, runWith_succ, runWith_succ, ih]

/-- The step-tick counter grows by one exactly when the last invocation is a
step tick. -/
theorem stepTicksFrom_succ (c : Config) (acc n : Nat) (s : State) :
    stepTicksFrom c acc (n + 1) s
      = stepTicksFrom c acc n s + (if isStepTick c (runWith c n s) then 1 else 0) := by
  induction n generalizing acc s with
  | zero =>
    show stepTicksFrom c (if isStepTick c s then acc + 1 else acc) 0 (Timer0With c s) = _
    simp only [stepTicksFrom, runWith]
    split_ifs <;> rfl
  | succ m ih =>
    show stepTicksFrom c (if isStepTick c s then acc + 1 else acc) (m + 1) (Timer0With c s) = _
    rw [ih]
    rfl

/-- Counting step ticks one invocation further. -/
theorem stepTicksWith_succ (c : Config) (n : Nat) (s : State) :
    stepTicksWith c (n + 1) s
      = stepTicksWith c n s + (if isStepTick c (runWith c n s) then 1 else 0) :=
  stepTicksFrom_succ c 0 n s

/-- Closed-form duty value after at least one step tick. -/
theorem dutyAfter_succ (k : Nat) : dutyAfter (k + 1) = 100 + tri (k % 1800) := by
  simp [dutyAfter]

/-- Closed-form direction after at least one step tick. -/
theorem dirAfter_succ (k : Nat) :
    dirAfter (k + 1) = if k % 1800 < 900 then UP_CNT else DOWN_CNT := by
  simp [dirAfter]

/-- The five phases of the closed form: the first step tick, rising, arrival
at the top, falling, arrival at the bottom. -/
theorem closed_step_cases (k : Nat) :
    (dirAfter k = DOWN_CNT ∧ dutyAfter k = 100 ∧ dutyAfter (k + 1) = 100
        ∧ dirAfter (k + 1) = UP_CNT)
    ∨ (dirAfter k = UP_CNT ∧ 100 ≤ dutyAfter k ∧ dutyAfter k < 999
        ∧ dutyAfter (k + 1) = dutyAfter k + 1 ∧ dirAfter (k + 1) = UP_CNT)
    ∨ (dirAfter k = UP_CNT ∧ dutyAfter k = 999 ∧ dutyAfter (k + 1) = 1000
        ∧ dirAfter (k + 1) = DOWN_CNT)
    ∨ (dirAfter k = DOWN_CNT ∧ 101 < dutyAfter k ∧ dutyAfter k ≤ 1000
        ∧ dutyAfter (k + 1) + 1 = dutyAfter k ∧ dirAfter (k + 1) = DOWN_CNT)
    ∨ (dirAfter k = DOWN_CNT ∧ dutyAfter k = 101 ∧ dutyAfter (k + 1) = 100
        ∧ dirAfter (k + 1) = UP_CNT) := by
  cases k with
  | zero =>
    left
    simp [dutyAfter, dirAfter, tri]
  | succ m =>
    right
    rw [dutyAfter_succ, dirAfter_succ, dutyAfter_succ, dirAfter_succ]
    unfold tri
    have hne : DOWN_CNT ≠ UP_CNT := by decide
    have hne2 : UP_CNT ≠ DOWN_CNT := by decide
    by_cases h1 : m % 1800 < 899
    · have a1 : m % 1800 < 900 := by omega
      have a2 : (m + 1) % 1800 < 900 := by omega
      have a3 : m % 1800 ≤ 900 := by omega
      have a4 : (m + 1) % 1800 ≤ 900 := by omega
      rw [if_pos a1, if_pos a2, if_pos a3, if_pos a4]
      left
      refine ⟨rfl, ?_, ?_, ?_, rfl⟩ <;> omega
    · right
      by_cases h2 : m % 1800 = 899
      · have a1 : m % 1800 < 900 := by omega
        have a2 : ¬ (m + 1) % 1800 < 900 := by omega
        have a3 : m % 1800 ≤ 900 := by omega
        have a4 : (m + 1) % 1800 ≤ 900 := by omega
        rw [if_pos a1, if_neg a2, if_pos a3, if_pos a4]
        left
        refine ⟨rfl, ?_, ?_, rfl⟩ <;> omega
      · right
        by_cases h3 : m % 1800 < 1799
        · have a1 : ¬ m % 1800 < 900 := by omega
          have a2 : ¬ (m + 1) % 1800 < 900 := by omega
          rw [if_neg a1, if_neg a2]
          left
          refine ⟨rfl, ?_, ?_, ?_, rfl⟩ <;> split_ifs <;> omega
        · have a1 : ¬ m % 1800 < 900 := by omega
          have a2 : (m + 1) % 1800 < 900 := by omega
          have a3 : ¬ m % 1800 ≤ 900 := by omega
          have a4 : (m + 1) % 1800 ≤ 900 := by omega
          rw [if_neg a1, if_pos a2, if_neg a3, if_pos a4]
          right
          refine ⟨rfl, ?_, ?_, rfl⟩ <;> omega

/-- A step tick of the compiled handler advances the closed form by one. -/
theorem Timer0_step_closed (k : Nat) (d : Int) (hd : 2000 ≤ d) :
    Timer0 ⟨1000, dutyAfter k, dirAfter k, d⟩
      = ⟨1000, dutyAfter (k + 1), dirAfter (k + 1), 0⟩ := by
  unfold Timer0 Timer0With
  simp only [compiled, DIV_INTERVAL, STEP, LOWEST_PWM, HIGHEST_PWM, REG_MOD]
  rw [if_pos hd]
  have hc := closed_step_cases k
  generalize dutyAfter k = a at hc ⊢
  generalize dutyAfter (k + 1) = b at hc ⊢
  generalize dirAfter k = x at hc ⊢
  generalize dirAfter (k + 1) = y at hc ⊢
  simp only [DOWN_CNT, UP_CNT] at hc ⊢
  simp only [State.mk.injEq, true_and, and_true]
  constructor
  · split_ifs <;> omega
  · split_ifs <;> omega

/-- Unfolding the compiled run at its last invocation. -/
theorem run_succ (n : Nat) (s : State) : run (n + 1) s = Timer0 (run n s) :=
  runWith_succ compiled n s

/-- Below the threshold the compiled handler only increments `div`. -/
theorem Timer0_nonstep (s : State) (h : s.div < 2000) :
    Timer0 s = { s with div := s.div + 1 } := by
  unfold Timer0 Timer0With
  have hn : ¬ s.div ≥ compiled.divInterval := by
    show ¬ s.div ≥ 2000
    omega
  rw [if_neg hn, incInt16_of_lt _ (by unfold INT_MAX; omega)]

/-- Closed form of the compiled run from startup: `n / 2001` step ticks have
been executed and `div = n % 2001`. -/
theorem run_startup_closed (n : Nat) :
    run n startup
      = ⟨1000, dutyAfter (n / 2001), dirAfter (n / 2001), ((n % 2001 : Nat) : Int)⟩ := by
  induction n with
  | zero => decide
  | succ m ih =>
    rw [run_succ, ih]
    by_cases h : m % 2001 = 2000
    · have e1 : (m + 1) / 2001 = m / 2001 + 1 := by omega
      have e2 : (m + 1) % 2001 = 0 := by omega
      rw [e1, e2]
      exact Timer0_step_closed (m / 2001) _ (by omega)
    · have e1 : (m + 1) / 2001 = m / 2001 := by omega
      have e2 : (m + 1) % 2001 = m % 2001 + 1 := by omega
      rw [e1, e2, Timer0_nonstep _ (by show ((m % 2001 : Nat) : Int) < 2000; omega)]
      simp

/-- The invocation taken after `n` invocations from startup is a step tick
exactly when `n % 2001 = 2000`. -/
theorem isStepTick_run_startup (n : Nat) :
    isStepTick compiled (run n startup) ↔ n % 2001 = 2000 := by
  rw [run_startup_closed]
  show ((n % 2001 : Nat) : Int) ≥ 2000 ↔ _
  omega

/-- Counting step ticks of the compiled run one invocation further. -/
theorem stepTicks_succ (n : Nat) (s : State) :
    stepTicks (n + 1) s = stepTicks n s + (if isStepTick compiled (run n s) then 1 else 0) :=
  stepTicksWith_succ compiled n s

/-- The first `n` invocations from startup contain `n / 2001` step ticks. -/
theorem stepTicks_startup_closed (n : Nat) : stepTicks n startup = n / 2001 := by
  induction n with
  | zero => rfl
  | succ m ih =>
    rw [stepTicks_succ, ih]
    by_cases h : m % 2001 = 2000
    · rw [if_pos ((isStepTick_run_startup m).mpr h)]
      omega
    · rw [if_neg (fun hs => h ((isStepTick_run_startup m).mp hs))]
      omega

/-! ## Theorems about the compiled run -/

/-- The closed-form duty value lies in `100 .. 1000`. -/
theorem dutyAfter_bounds (k : Nat) : 100 ≤ dutyAfter k ∧ dutyAfter k ≤ 1000 := by
  unfold dutyAfter tri
  split_ifs <;> omega

/-- The duty register stays in `100 .. 1000` along the run from startup. -/
theorem run_startup_duty_bounds (n : Nat) :
    100 ≤ (run n startup).TA0CCR1 ∧ (run n startup).TA0CCR1 ≤ 1000 := by
  rw [run_startup_closed]
  exact dutyAfter_bounds (n / 2001)

/-- C1 (boundedness): after any number `n` of invocations of `Timer0` from the
startup state the duty register satisfies
`LOWEST_PWM ≤ TA0CCR1 ≤ HIGHEST_PWM`. -/
theorem duty_bounded_from_startup (n : Nat) :
    LOWEST_PWM ≤ (run n startup).TA0CCR1 ∧ (run n startup).TA0CCR1 ≤ HIGHEST_PWM :=
  run_startup_duty_bounds n

/-- C2 (step cadence), the code at the failing input: from startup the
invocation number `n + 1` is a step tick exactly when `2001` divides `n + 1`,
not `2000`.  After 1999 invocations `div = 1999`; the 2000th invocation is not
a step tick, it only raises `div` to 2000, and the 2001st is the first step
tick. -/
theorem step_cadence_is_2001 :
    (∀ n : Nat, isStepTick compiled (run n startup) ↔ 2001 ∣ n + 1)
      ∧ run 1999 startup = ⟨1000, 100, DOWN_CNT, 1999⟩
      ∧ ¬ isStepTick compiled (run 1999 startup)
      ∧ run 2000 startup = ⟨1000, 100, DOWN_CNT, 2000⟩
      ∧ isStepTick compiled (run 2000 startup) := by
  refine ⟨fun n => ?_, ?_, ?_, ?_, ?_⟩
  · rw [isStepTick_run_startup]
    omega
  · rw [run_startup_closed]
    decide
  · rw [isStepTick_run_startup]
    decide
  · rw [run_startup_closed]
    decide
  · rw [isStepTick_run_startup]

/-- C3, counterexample: after 1,800,000 invocations from startup the duty
value is 998 and the direction is still `UP_CNT`; the state is not
(`HIGHEST_PWM`, `DOWN_CNT`). -/
theorem ramp_up_not_done_after_1800000 :
    run 1800000 startup = ⟨1000, 998, UP_CNT, 1101⟩
      ∧ ¬ ((run 1800000 startup).TA0CCR1 = HIGHEST_PWM
            ∧ (run 1800000 startup).dir = DOWN_CNT) := by
  have h : run 1800000 startup = ⟨1000, 998, UP_CNT, 1101⟩ := by
    rw [run_startup_closed]
    decide
  refine ⟨h, ?_⟩
  rw [h]
  decide

/-- C3, amended (ramp-up counted in step ticks): in the run from startup, once
`k` step ticks have been executed with `1 ≤ k ≤ 901`, the duty value is
`LOWEST_PWM + (k - 1) * STEP` and the direction is `UP_CNT` for `k < 901` and
`DOWN_CNT` for `k = 901`.  The first step tick only turns the direction, the
next 900 raise the duty by `STEP` each, so the duty first equals `HIGHEST_PWM`,
with direction `DOWN_CNT`, when 901 step ticks have been executed. -/
theorem ramp_up_in_step_ticks (n : Nat) (h1 : 1 ≤ stepTicks n startup)
    (h2 : stepTicks n startup ≤ 901) :
    (run n startup).TA0CCR1 = LOWEST_PWM + (stepTicks n startup - 1) * STEP
      ∧ (run n startup).dir = (if stepTicks n startup = 901 then DOWN_CNT else UP_CNT) := by
  rw [stepTicks_startup_closed] at h1 h2 ⊢
  rw [run_startup_closed]
  show dutyAfter (n / 2001) = 100 + (n / 2001 - 1) * 1
    ∧ dirAfter (n / 2001) = (if n / 2001 = 901 then DOWN_CNT else UP_CNT)
  unfold dutyAfter dirAfter tri
  constructor
  · split_ifs <;> omega
  · split_ifs <;> first | rfl | omega

/-- Witness for `ramp_up_in_step_ticks`: 1,802,901 invocations contain 901
step ticks; the duty is then `HIGHEST_PWM` and the direction `DOWN_CNT`. -/
theorem ramp_up_in_step_ticks_witness :
    stepTicks 1802901 startup = 901
      ∧ (run 1802901 startup).TA0CCR1 = HIGHEST_PWM
      ∧ (run 1802901 startup).dir = DOWN_CNT := by
  have hk : stepTicks 1802901 startup = 901 := by
    rw [stepTicks_startup_closed]
  have h := ramp_up_in_step_ticks 1802901 (by rw [hk]; decide) (by rw [hk])
  rw [hk] at h
  exact ⟨hk, h.1, h.2⟩

/-- C4, counterexample: after 3,600,000 invocations from startup the state is
(duty 102, `DOWN_CNT`, `div = 201`), which is not the startup state. -/
theorem full_cycle_not_after_3600000 :
    run 3600000 startup = ⟨1000, 102, DOWN_CNT, 201⟩
      ∧ run 3600000 startup ≠ startup := by
  have h : run 3600000 startup = ⟨1000, 102, DOWN_CNT, 201⟩ := by
    rw [run_startup_closed]
    decide
  refine ⟨h, ?_⟩
  rw [h]
  decide

/-- The closed-form duty value has period 1800 from the first step tick on. -/
theorem dutyAfter_add_period (k : Nat) (hk : 1 ≤ k) : dutyAfter (k + 1800) = dutyAfter k := by
  obtain ⟨j, rfl⟩ : ∃ j, k = j + 1 := ⟨k - 1, by omega⟩
  have e : j + 1 + 1800 = (j + 1800) + 1 := by omega
  rw [e, dutyAfter_succ, dutyAfter_succ, Nat.add_mod_right]

/-- The closed-form direction has period 1800 from the first step tick on. -/
theorem dirAfter_add_period (k : Nat) (hk : 1 ≤ k) : dirAfter (k + 1800) = dirAfter k := by
  obtain ⟨j, rfl⟩ : ∃ j, k = j + 1 := ⟨k - 1, by omega⟩
  have e : j + 1 + 1800 = (j + 1800) + 1 := by omega
  rw [e, dirAfter_succ, dirAfter_succ, Nat.add_mod_right]

/-- C4, amended (full cycle counted in step ticks): the startup state, whose
direction is `DOWN_CNT`, is never reached again; from the first step tick on
the run is periodic with period `2 * 900 = 1800` step ticks: for `k ≥ 1` the
duty value and the direction after `k + 1800` step ticks equal those after `k`
step ticks (and the whole states are equal when their divisors are), and right
after every step tick numbered `1 + 1800 * j` the state is exactly
(duty `LOWEST_PWM`, `UP_CNT`, `div = 0`). -/
theorem full_cycle_in_step_ticks :
    (∀ j : Nat, run (j + 1) startup ≠ startup)
      ∧ (∀ n m : Nat, 1 ≤ stepTicks n startup →
          stepTicks m startup = stepTicks n startup + 1800 →
          (run m startup).TA0CCR1 = (run n startup).TA0CCR1
            ∧ (run m startup).dir = (run n startup).dir
            ∧ ((run m startup).div = (run n startup).div → run m startup = run n startup))
      ∧ (∀ n : Nat, isStepTick compiled (run n startup) →
          stepTicks (n + 1) startup % 1800 = 1 →
          run (n + 1) startup = ⟨1000, LOWEST_PWM, UP_CNT, 0⟩) := by
  refine ⟨fun j h => ?_, fun n m h1 h2 => ?_, fun n hs hk => ?_⟩
  · rw [run_startup_closed] at h
    have hs : startup = ⟨1000, 100, 1, 0⟩ := by decide
    rw [hs] at h
    simp only [State.mk.injEq, true_and] at h
    obtain ⟨hduty, hdir, hdiv⟩ := h
    have hk : 1 ≤ (j + 1) / 2001 := by omega
    obtain ⟨k, hk2⟩ : ∃ k, (j + 1) / 2001 = k + 1 := ⟨(j + 1) / 2001 - 1, by omega⟩
    rw [hk2, dutyAfter_succ] at hduty
    rw [hk2, dirAfter_succ] at hdir
    unfold tri at hduty
    simp only [UP_CNT, DOWN_CNT] at hdir
    split_ifs at hduty hdir <;> omega
  · rw [stepTicks_startup_closed] at h1
    rw [stepTicks_startup_closed, stepTicks_startup_closed] at h2
    rw [run_startup_closed m, run_startup_closed n, h2]
    simp only [dutyAfter_add_period _ h1, dirAfter_add_period _ h1, State.mk.injEq, true_and]
    exact fun h => h
  · rw [isStepTick_run_startup] at hs
    rw [stepTicks_startup_closed] at hk
    rw [run_startup_closed]
    have e2 : (n + 1) % 2001 = 0 := by omega
    obtain ⟨k, hk2⟩ : ∃ k, (n + 1) / 2001 = k + 1 := ⟨(n + 1) / 2001 - 1, by omega⟩
    rw [e2, hk2, dutyAfter_succ, dirAfter_succ]
    have e3 : k % 1800 = 0 := by omega
    rw [e3]
    decide

/-- Witness for `full_cycle_in_step_ticks`: after 2001 invocations one step
tick has been executed, after 3,603,801 invocations 1801 have, and the two
states are equal; the invocation number 3,603,801 is a step tick and leaves the
state (duty 100, `UP_CNT`, `div = 0`). -/
theorem full_cycle_in_step_ticks_witness :
    run 3603801 startup = run 2001 startup
      ∧ run (3603800 + 1) startup = ⟨1000, LOWEST_PWM, UP_CNT, 0⟩ := by
  have h1 : stepTicks 2001 startup = 1 := stepTicks_startup_closed 2001
  have h2 : stepTicks 3603801 startup = 1801 := stepTicks_startup_closed 3603801
  have h3 : stepTicks (3603800 + 1) startup % 1800 = 1 :=
    congrArg (· % 1800) (stepTicks_startup_closed (3603800 + 1))
  have hd1 : (run 2001 startup).div = 0 := congrArg State.div (run_startup_closed 2001)
  have hd2 : (run 3603801 startup).div = 0 := congrArg State.div (run_startup_closed 3603801)
  have hs : isStepTick compiled (run 3603800 startup) :=
    (isStepTick_run_startup 3603800).mpr rfl
  refine ⟨?_, ?_⟩
  · exact (full_cycle_in_step_ticks.2.1 2001 3603801 (le_of_eq h1.symm)
      (h2.trans (congrArg (· + 1800) h1.symm))).2.2 (hd2.trans hd1.symm)
  · exact full_cycle_in_step_ticks.2.2 3603800 hs h3

/-- C5, counterexample: the startup direction is `DOWN_CNT`, not `UP_CNT`; no
step tick occurs among the first 2000 invocations, invocation 2001 is the first
step tick, and it leaves the duty value at 100 instead of raising it to
`LOWEST_PWM + STEP`. -/
theorem first_step_tick_keeps_duty :
    startup.dir ≠ UP_CNT
      ∧ stepTicks 2000 startup = 0
      ∧ isStepTick compiled (run 2000 startup)
      ∧ run (2000 + 1) startup = ⟨1000, 100, UP_CNT, 0⟩
      ∧ (run (2000 + 1) startup).TA0CCR1 ≠ LOWEST_PWM + STEP := by
  have h : run (2000 + 1) startup = ⟨1000, 100, UP_CNT, 0⟩ := by
    rw [run_startup_closed]
    decide
  refine ⟨by decide, stepTicks_startup_closed 2000, (isStepTick_run_startup 2000).mpr rfl, h, ?_⟩
  rw [h]
  decide

/-- C5, amended (first steps from startup): the startup state is
(duty `LOWEST_PWM`, direction `DOWN_CNT`, `div = 0`); the first step tick leaves
the duty value at `LOWEST_PWM`, sets the direction to `UP_CNT` and resets `div`
to 0; the second step tick raises the duty value to `LOWEST_PWM + STEP = 101`
and resets `div` to 0. -/
theorem first_two_step_ticks :
    startup = ⟨1000, LOWEST_PWM, DOWN_CNT, 0⟩
      ∧ ∀ n : Nat, isStepTick compiled (run n startup) →
          (stepTicks n startup = 0 → run (n + 1) startup = ⟨1000, LOWEST_PWM, UP_CNT, 0⟩)
            ∧ (stepTicks n startup = 1 →
                run (n + 1) startup = ⟨1000, LOWEST_PWM + STEP, UP_CNT, 0⟩) := by
  refine ⟨by decide, fun n hs => ?_⟩
  rw [isStepTick_run_startup] at hs
  rw [stepTicks_startup_closed, run_startup_closed]
  have e1 : (n + 1) / 2001 = n / 2001 + 1 := by omega
  have e2 : (n + 1) % 2001 = 0 := by omega
  rw [e1, e2]
  constructor
  · intro h0
    rw [h0]
    decide
  · intro h1
    rw [h1]
    decide

/-- Witness for `first_two_step_ticks`: invocation 2001 is the first step tick
and invocation 4002 the second. -/
theorem first_two_step_ticks_witness :
    run (2000 + 1) startup = ⟨1000, LOWEST_PWM, UP_CNT, 0⟩
      ∧ run (4001 + 1) startup = ⟨1000, LOWEST_PWM + STEP, UP_CNT, 0⟩ :=
  ⟨(first_two_step_ticks.2 2000 ((isStepTick_run_startup 2000).mpr rfl)).1
      (stepTicks_startup_closed 2000),
    (first_two_step_ticks.2 4001 ((isStepTick_run_startup 4001).mpr rfl)).2
      (stepTicks_startup_closed 4001)⟩

/-- C6, counterexample: at the end of the first invocation from startup the
duty value sits at `LOWEST_PWM` while the direction is `DOWN_CNT`, so it does
not point away from that boundary. -/
theorem direction_points_down_at_lowest :
    (run 1 startup).TA0CCR1 = LOWEST_PWM ∧ (run 1 startup).dir = DOWN_CNT
      ∧ (run 1 startup).dir ≠ UP_CNT := by
  decide

/-- One invocation from a state of the run either keeps duty value and
direction or advances the closed form by one step tick. -/
theorem run_succ_startup_cases (n : Nat) :
    ((run (n + 1) startup).TA0CCR1 = (run n startup).TA0CCR1
        ∧ (run (n + 1) startup).dir = (run n startup).dir)
      ∨ ((run n startup).TA0CCR1 = dutyAfter (n / 2001)
        ∧ (run n startup).dir = dirAfter (n / 2001)
        ∧ (run (n + 1) startup).TA0CCR1 = dutyAfter (n / 2001 + 1)
        ∧ (run (n + 1) startup).dir = dirAfter (n / 2001 + 1)) := by
  rw [run_startup_closed (n + 1), run_startup_closed n]
  by_cases h : n % 2001 = 2000
  · right
    have e1 : (n + 1) / 2001 = n / 2001 + 1 := by omega
    rw [e1]
    exact ⟨rfl, rfl, rfl, rfl⟩
  · left
    have e1 : (n + 1) / 2001 = n / 2001 := by omega
    rw [e1]
    exact ⟨rfl, rfl⟩

/-- C6, amended (direction-flip exactness): in the run from startup, (1) whenever
the duty value equals `HIGHEST_PWM` the direction is `DOWN_CNT`; (2) once a
step tick has been executed, whenever the duty value equals `LOWEST_PWM` the
direction is `UP_CNT`, while before the first step tick the duty value sits at
`LOWEST_PWM` with the initial direction `DOWN_CNT`; (3) on an invocation by
which the duty value arrives at `HIGHEST_PWM` the direction changes from
`UP_CNT` to `DOWN_CNT`, and (4) on an invocation by which it arrives at
`LOWEST_PWM` the direction changes from `DOWN_CNT` to `UP_CNT`. -/
theorem direction_flip_exactness (n : Nat) :
    ((run n startup).TA0CCR1 = HIGHEST_PWM → (run n startup).dir = DOWN_CNT)
      ∧ (1 ≤ stepTicks n startup → (run n startup).TA0CCR1 = LOWEST_PWM →
          (run n startup).dir = UP_CNT)
      ∧ (stepTicks n startup = 0 →
          (run n startup).TA0CCR1 = LOWEST_PWM ∧ (run n startup).dir = DOWN_CNT)
      ∧ ((run n startup).TA0CCR1 ≠ HIGHEST_PWM → (run (n + 1) startup).TA0CCR1 = HIGHEST_PWM →
          (run n startup).dir = UP_CNT ∧ (run (n + 1) startup).dir = DOWN_CNT)
      ∧ ((run n startup).TA0CCR1 ≠ LOWEST_PWM → (run (n + 1) startup).TA0CCR1 = LOWEST_PWM →
          (run n startup).dir = DOWN_CNT ∧ (run (n + 1) startup).dir = UP_CNT) := by
  refine ⟨?_, ?_, ?_, ?_, ?_⟩
  · rw [run_startup_closed]
    show dutyAfter (n / 2001) = 1000 → dirAfter (n / 2001) = DOWN_CNT
    unfold dutyAfter dirAfter tri
    intro h
    split_ifs at h ⊢ <;> first | rfl | omega
  · rw [run_startup_closed, stepTicks_startup_closed]
    show 1 ≤ n / 2001 → dutyAfter (n / 2001) = 100 → dirAfter (n / 2001) = UP_CNT
    unfold dutyAfter dirAfter tri
    intro h0 h
    split_ifs at h ⊢ <;> first | rfl | omega
  · rw [run_startup_closed, stepTicks_startup_closed]
    intro h0
    rw [h0]
    exact ⟨rfl, rfl⟩
  · intro h1 h2
    have hc := closed_step_cases (n / 2001)
    rcases run_succ_startup_cases n with ⟨e1, _⟩ | ⟨e1, e2, e3, e4⟩
    · exact absurd (e1 ▸ h2) h1
    · rw [e1] at h1
      rw [e3] at h2
      rw [e2, e4]
      simp only [HIGHEST_PWM] at h1 h2
      rcases hc with h | h | h | h | h
      · omega
      · omega
      · exact ⟨h.1, h.2.2.2⟩
      · omega
      · omega
  · intro h1 h2
    have hc := closed_step_cases (n / 2001)
    rcases run_succ_startup_cases n with ⟨e1, _⟩ | ⟨e1, e2, e3, e4⟩
    · exact absurd (e1 ▸ h2) h1
    · rw [e1] at h1
      rw [e3] at h2
      rw [e2, e4]
      simp only [LOWEST_PWM] at h1 h2
      rcases hc with h | h | h | h | h
      · omega
      · omega
      · omega
      · omega
      · exact ⟨h.1, h.2.2.2⟩

/-- Witness for `direction_flip_exactness`: the duty value is `HIGHEST_PWM`
after 1,802,901 invocations (arriving from 999 on that invocation) and
`LOWEST_PWM` after 3,603,801 invocations (arriving from 101); in both states
the direction points away from the boundary. -/
theorem direction_flip_exactness_witness :
    (run 1802901 startup).dir = DOWN_CNT
      ∧ (run 2001 startup).dir = UP_CNT
      ∧ ((run 0 startup).TA0CCR1 = LOWEST_PWM ∧ (run 0 startup).dir = DOWN_CNT)
      ∧ ((run 1802900 startup).dir = UP_CNT ∧ (run (1802900 + 1) startup).dir = DOWN_CNT)
      ∧ ((run 3603800 startup).dir = DOWN_CNT ∧ (run (3603800 + 1) startup).dir = UP_CNT) := by
  have a1 : (run 1802901 startup).TA0CCR1 = HIGHEST_PWM :=
    (congrArg State.TA0CCR1 (run_startup_closed 1802901)).trans (by decide)
  have a2 : (run 2001 startup).TA0CCR1 = LOWEST_PWM :=
    (congrArg State.TA0CCR1 (run_startup_closed 2001)).trans (by decide)
  have a3 : (run 1802900 startup).TA0CCR1 ≠ HIGHEST_PWM := by
    rw [congrArg State.TA0CCR1 (run_startup_closed 1802900)]
    decide
  have a4 : (run (1802900 + 1) startup).TA0CCR1 = HIGHEST_PWM :=
    (congrArg State.TA0CCR1 (run_startup_closed (1802900 + 1))).trans (by decide)
  have a5 : (run 3603800 startup).TA0CCR1 ≠ LOWEST_PWM := by
    rw [congrArg State.TA0CCR1 (run_startup_closed 3603800)]
    decide
  have a6 : (run (3603800 + 1) startup).TA0CCR1 = LOWEST_PWM :=
    (congrArg State.TA0CCR1 (run_startup_closed (3603800 + 1))).trans (by decide)
  exact ⟨(direction_flip_exactness 1802901).1 a1,
    (direction_flip_exactness 2001).2.1 (le_of_eq (stepTicks_startup_closed 2001).symm) a2,
    (direction_flip_exactness 0).2.2.1 rfl,
    (direction_flip_exactness 1802900).2.2.2.1 a3 a4,
    (direction_flip_exactness 3603800).2.2.2.2 a5 a6⟩

/-- C8 (divisor range), the code at the failing input: after 2000 invocations
from startup `div` equals `DIV_INTERVAL = 2000`, above `DIV_INTERVAL - 1`; the
invocation on which `div` reaches 2000 does not reset it, the next one does.
In the whole run `div` ranges over `0 .. DIV_INTERVAL`. -/
theorem divisor_reaches_DIV_INTERVAL :
    (run 2000 startup).div = DIV_INTERVAL
      ∧ ¬ (run 2000 startup).div ≤ DIV_INTERVAL - 1
      ∧ (run 2001 startup).div = 0
      ∧ ∀ n : Nat, 0 ≤ (run n startup).div ∧ (run n startup).div ≤ DIV_INTERVAL := by
  have h : (run 2000 startup).div = DIV_INTERVAL :=
    (congrArg State.div (run_startup_closed 2000)).trans (by decide)
  refine ⟨h, ?_, (congrArg State.div (run_startup_closed 2001)).trans (by decide), fun n => ?_⟩
  · rw [h]
    decide
  · rw [run_startup_closed]
    show (0 : Int) ≤ ((n % 2001 : Nat) : Int) ∧ ((n % 2001 : Nat) : Int) ≤ 2000
    omega

/-- C10, counterexample: a step tick taken with the duty value at
`HIGHEST_PWM` and direction `UP_CNT` passes the guard
`TA0CCR1 <= HIGHEST_PWM` and raises the duty value to 1001, where the
specified rule (guard `dutyValue < HIGHEST`) leaves it at 1000; the direction
stays `UP_CNT` and the next step tick leaves the state as it is. -/
theorem step_at_highest_rising_overshoots :
    isStepTick compiled ⟨1000, HIGHEST_PWM, UP_CNT, DIV_INTERVAL⟩
      ∧ Timer0 ⟨1000, HIGHEST_PWM, UP_CNT, DIV_INTERVAL⟩ = ⟨1000, 1001, UP_CNT, 0⟩
      ∧ specStepDuty compiled HIGHEST_PWM UP_CNT = 1000
      ∧ (Timer0 ⟨1000, HIGHEST_PWM, UP_CNT, DIV_INTERVAL⟩).TA0CCR1
          ≠ specStepDuty compiled HIGHEST_PWM UP_CNT
      ∧ Timer0 ⟨1000, 1001, UP_CNT, DIV_INTERVAL⟩ = ⟨1000, 1001, UP_CNT, 0⟩ := by
  decide

/-- Away from the state (duty `HIGHEST_PWM`, direction `UP_CNT`) a step tick of
the compiled handler changes the duty value as the specified rule does. -/
theorem step_duty_eq_spec_off_corner (s : State) (hs : isStepTick compiled s)
    (h1 : LOWEST_PWM ≤ s.TA0CCR1) (h2 : s.TA0CCR1 ≤ HIGHEST_PWM)
    (hc : ¬ (s.TA0CCR1 = HIGHEST_PWM ∧ s.dir = UP_CNT)) :
    (Timer0 s).TA0CCR1 = specStepDuty compiled s.TA0CCR1 s.dir := by
  have hs2 : s.div ≥ compiled.divInterval := hs
  unfold Timer0 Timer0With specStepDuty
  rw [if_pos hs2]
  simp only [compiled, LOWEST_PWM, HIGHEST_PWM, STEP, REG_MOD, DOWN_CNT, UP_CNT] at *
  split_ifs <;> omega

/-! ## The handler with its constants as parameters -/

/-- While `div` stays at or below the threshold, `k` invocations only add `k`
to `div`. -/
theorem runWith_nonstep (c : Config) (hdi : c.divInterval ≤ INT_MAX) (k : Nat) (s : State)
    (h : s.div + k ≤ c.divInterval) :
    runWith c k s = { s with div := s.div + k } := by
  induction k with
  | zero => simp [runWith]
  | succ j ih =>
    rw [runWith_succ, ih (by omega)]
    unfold Timer0With
    have hn : ¬ (s.div + (j : Int)) ≥ c.divInterval := by omega
    have hinc : incInt16 (s.div + (j : Int)) = s.div + (j : Int) + 1 :=
      incInt16_of_lt _ (by omega)
    simp only [hn, if_false, hinc, State.mk.injEq, true_and]
    omega

/-- With `DIV_INTERVAL = 2000` and `div = 0`, 2001 invocations amount to one
step tick taken at `div = 2000`. -/
theorem runWith_2001 (c : Config) (hc : c.divInterval = 2000) (s : State) (h0 : s.div = 0) :
    runWith c 2001 s = Timer0With c { s with div := 2000 } := by
  rw [show (2001 : Nat) = 2000 + 1 from rfl, runWith_succ,
    runWith_nonstep c (by rw [hc]; decide) 2000 s (by rw [hc, h0]; decide), h0]
  rfl

/-- C7, counterexample: with `LOWEST = 100`, `HIGHEST = 103`, `STEP = 2` and
`DIV_INTERVAL = 2000` the third step tick (invocation 6003) raises the duty
value from 102 to 104, above `HIGHEST`. -/
theorem overshoot_when_step_does_not_divide :
    oddStepConfig.lowest < oddStepConfig.highest ∧ 1 ≤ oddStepConfig.step
      ∧ (runWith oddStepConfig 6003 (startupWith oddStepConfig)).TA0CCR1 = 104
      ∧ ¬ (runWith oddStepConfig 6003 (startupWith oddStepConfig)).TA0CCR1
            ≤ oddStepConfig.highest := by
  have h1 : runWith oddStepConfig 2001 (startupWith oddStepConfig) = ⟨103, 100, UP_CNT, 0⟩ := by
    rw [runWith_2001 _ rfl _ rfl]
    decide
  have h2 : runWith oddStepConfig 2001 ⟨103, 100, UP_CNT, 0⟩ = ⟨103, 102, UP_CNT, 0⟩ := by
    rw [runWith_2001 _ rfl _ rfl]
    decide
  have h3 : runWith oddStepConfig 2001 ⟨103, 102, UP_CNT, 0⟩ = ⟨103, 104, UP_CNT, 0⟩ := by
    rw [runWith_2001 _ rfl _ rfl]
    decide
  have h : runWith oddStepConfig 6003 (startupWith oddStepConfig) = ⟨103, 104, UP_CNT, 0⟩ := by
    rw [show (6003 : Nat) = 2001 + 2001 + 2001 from rfl, runWith_add, runWith_add, h1, h2, h3]
  rw [h]
  decide

/-- One invocation keeps the duty value on the grid `LOWEST + a * STEP` with
`a ≤ b`, where `HIGHEST = LOWEST + b * STEP`, and keeps the direction
`DOWN_CNT` at the top of the grid. -/
theorem grid_step (c : Config) (b : Nat) (hb : c.highest = c.lowest + b * c.step)
    (h16 : c.highest < REG_MOD) (s : State)
    (h : ∃ a, a ≤ b ∧ s.TA0CCR1 = c.lowest + a * c.step ∧ (a = b → s.dir = DOWN_CNT)) :
    ∃ a, a ≤ b ∧ (Timer0With c s).TA0CCR1 = c.lowest + a * c.step
      ∧ (a = b → (Timer0With c s).dir = DOWN_CNT) := by
  obtain ⟨a, hab, hv, hd⟩ := h
  have hne : UP_CNT ≠ DOWN_CNT := by decide
  have hmono : a * c.step ≤ b * c.step := Nat.mul_le_mul_right _ hab
  unfold Timer0With
  by_cases hstep : s.div ≥ c.divInterval
  · rw [if_pos hstep]
    dsimp only
    by_cases hdown : s.TA0CCR1 > c.lowest ∧ s.dir = DOWN_CNT
    · rw [if_pos hdown]
      obtain ⟨j, rfl⟩ : ∃ j, a = j + 1 := by
        refine ⟨a - 1, ?_⟩
        rcases Nat.eq_zero_or_pos a with h0 | h0
        · rw [h0] at hv
          omega
        · omega
      have e : (j + 1) * c.step = j * c.step + c.step := Nat.succ_mul _ _
      have hval : (s.TA0CCR1 + (REG_MOD - c.step % REG_MOD)) % REG_MOD
          = c.lowest + j * c.step := by
        unfold REG_MOD at h16 ⊢
        omega
      rw [hval]
      exact ⟨j, by omega, rfl, fun hjb => absurd hjb (by omega)⟩
    · rw [if_neg hdown]
      by_cases hup : s.TA0CCR1 ≤ c.highest ∧ s.dir = UP_CNT
      · rw [if_pos hup]
        have hlt : a + 1 ≤ b := by
          rcases Nat.lt_or_ge a b with h1 | h1
          · exact h1
          · exact absurd ((hd (by omega)).symm.trans hup.2) hne.symm
        have e : (a + 1) * c.step = a * c.step + c.step := Nat.succ_mul _ _
        have hmono2 : (a + 1) * c.step ≤ b * c.step := Nat.mul_le_mul_right _ hlt
        have hval : (s.TA0CCR1 + c.step) % REG_MOD = c.lowest + (a + 1) * c.step := by
          unfold REG_MOD at h16 ⊢
          omega
        rw [hval]
        refine ⟨a + 1, hlt, rfl, fun hjb => ?_⟩
        have hH : c.lowest + (a + 1) * c.step = c.highest := by rw [hjb, hb]
        rw [if_pos hH]
      · rw [if_neg hup]
        refine ⟨a, hab, hv, fun hjb => ?_⟩
        have hH : s.TA0CCR1 = c.highest := by rw [hv, hjb, hb]
        rw [if_pos hH]
  · rw [if_neg hstep]
    exact ⟨a, hab, hv, hd⟩

/-- The grid invariant holds along the run from startup. -/
theorem grid_invariant (c : Config) (b : Nat) (hb : c.highest = c.lowest + b * c.step)
    (h16 : c.highest < REG_MOD) (n : Nat) :
    ∃ a, a ≤ b ∧ (runWith c n (startupWith c)).TA0CCR1 = c.lowest + a * c.step
      ∧ (a = b → (runWith c n (startupWith c)).dir = DOWN_CNT) := by
  induction n with
  | zero =>
    refine ⟨0, Nat.zero_le _, ?_, fun _ => rfl⟩
    show c.lowest % REG_MOD = c.lowest + 0 * c.step
    have : c.lowest ≤ c.highest := by rw [hb]; exact Nat.le_add_right _ _
    rw [Nat.mod_eq_of_lt (by omega)]
    omega
  | succ m ih =>
    rw [runWith_succ]
    exact grid_step c b hb h16 _ ih

/-- C7, amended (no overshoot when `STEP` divides the range): with the
handler's constants as parameters, for every `LOWEST < HIGHEST`, `HIGHEST`
representable in the 16-bit register, and every `STEP ≥ 1` that evenly divides
`HIGHEST - LOWEST`, after any number of invocations from the startup state the
duty value is neither below `LOWEST` nor above `HIGHEST`. -/
theorem no_overshoot_when_step_divides (c : Config) (hLH : c.lowest < c.highest)
    (_hS : 1 ≤ c.step) (hdvd : c.step ∣ c.highest - c.lowest) (h16 : c.highest < REG_MOD)
    (n : Nat) :
    c.lowest ≤ (runWith c n (startupWith c)).TA0CCR1
      ∧ (runWith c n (startupWith c)).TA0CCR1 ≤ c.highest := by
  obtain ⟨b, hb⟩ := hdvd
  have hb2 : c.highest = c.lowest + b * c.step := by
    rw [Nat.mul_comm b, ← hb]
    omega
  obtain ⟨a, hab, hv, _⟩ := grid_invariant c b hb2 h16 n
  have hmono : a * c.step ≤ b * c.step := Nat.mul_le_mul_right _ hab
  rw [hv, hb2]
  omega

/-- Witness for `no_overshoot_when_step_divides`: `STEP = 9` divides
`1000 - 100`; the bounds hold after 6003 invocations. -/
theorem no_overshoot_when_step_divides_witness :
    (⟨2000, 9, 100, 1000⟩ : Config).lowest
        ≤ (runWith ⟨2000, 9, 100, 1000⟩ 6003 (startupWith ⟨2000, 9, 100, 1000⟩)).TA0CCR1
      ∧ (runWith ⟨2000, 9, 100, 1000⟩ 6003 (startupWith ⟨2000, 9, 100, 1000⟩)).TA0CCR1
        ≤ (⟨2000, 9, 100, 1000⟩ : Config).highest :=
  no_overshoot_when_step_divides ⟨2000, 9, 100, 1000⟩ (by decide) (by decide) (by decide)
    (by decide) 6003

/-! ## Single invocations from an arbitrary state -/

/-- C11 (direction flips only at a boundary): for every state, if one
invocation of `Timer0` changes the direction, then afterwards either the duty
value equals `LOWEST_PWM` and the direction is `UP_CNT`, or the duty value
equals `HIGHEST_PWM` and the direction is `DOWN_CNT`. -/
theorem dir_changes_only_at_boundary (s : State) (h : (Timer0 s).dir ≠ s.dir) :
    ((Timer0 s).TA0CCR1 = LOWEST_PWM ∧ (Timer0 s).dir = UP_CNT)
      ∨ ((Timer0 s).TA0CCR1 = HIGHEST_PWM ∧ (Timer0 s).dir = DOWN_CNT) := by
  unfold Timer0 Timer0With at h ⊢
  by_cases hstep : s.div ≥ compiled.divInterval
  · rw [if_pos hstep] at h ⊢
    dsimp only at h ⊢
    show (_ = compiled.lowest ∧ _) ∨ (_ = compiled.highest ∧ _)
    split_ifs at h ⊢ with h1 h2 h3 h4 <;> simp_all
  · rw [if_neg hstep] at h
    exact absurd rfl h

/-- Witness for `dir_changes_only_at_boundary`: the step tick taken at duty
999 with direction `UP_CNT` arrives at `HIGHEST_PWM` and turns the direction. -/
theorem dir_changes_only_at_boundary_witness :
    ((Timer0 ⟨1000, 999, UP_CNT, 2000⟩).TA0CCR1 = LOWEST_PWM
        ∧ (Timer0 ⟨1000, 999, UP_CNT, 2000⟩).dir = UP_CNT)
      ∨ ((Timer0 ⟨1000, 999, UP_CNT, 2000⟩).TA0CCR1 = HIGHEST_PWM
        ∧ (Timer0 ⟨1000, 999, UP_CNT, 2000⟩).dir = DOWN_CNT) :=
  dir_changes_only_at_boundary ⟨1000, 999, UP_CNT, 2000⟩ (by decide)

/-- C12 (non-step ticks are self-transitions): for every state in which the
handler takes its non-step branch (`div < DIV_INTERVAL`), one invocation of
`Timer0` leaves the duty value and the direction unchanged and increases `div`
by exactly 1. -/
theorem nonstep_tick_only_counts (s : State) (h : ¬ isStepTick compiled s) :
    (Timer0 s).TA0CCR1 = s.TA0CCR1 ∧ (Timer0 s).dir = s.dir
      ∧ (Timer0 s).div = s.div + 1 ∧ (Timer0 s).TA0CCR0 = s.TA0CCR0 := by
  have hn : ¬ s.div ≥ compiled.divInterval := h
  have hlt : s.div < INT_MAX := by
    have h2 : ¬ s.div ≥ 2000 := hn
    unfold INT_MAX
    omega
  unfold Timer0 Timer0With
  rw [if_neg hn]
  exact ⟨rfl, rfl, incInt16_of_lt _ hlt, rfl⟩

/-- Witness for `nonstep_tick_only_counts`: the first invocation from
startup. -/
theorem nonstep_tick_only_counts_witness :
    (Timer0 startup).TA0CCR1 = startup.TA0CCR1 ∧ (Timer0 startup).dir = startup.dir
      ∧ (Timer0 startup).div = startup.div + 1
      ∧ (Timer0 startup).TA0CCR0 = startup.TA0CCR0 :=
  nonstep_tick_only_counts startup (by decide)

/-- C14 (the compiled configuration): `0 < LOWEST_PWM < HIGHEST_PWM`; both lie
in `[0, carrierPeriod]`, the carrier period being the value `init()` writes to
`TA0CCR0`; `STEP ≥ 1`; `STEP` divides `HIGHEST_PWM - LOWEST_PWM`; and
`DIV_INTERVAL = rampDurationTicks / ((HIGHEST_PWM - LOWEST_PWM) / STEP)`, that
is `1800000 / 900 = 2000`. -/
theorem compiled_config_preconditions :
    0 < LOWEST_PWM ∧ LOWEST_PWM < HIGHEST_PWM
      ∧ (∀ s : State, (init s).TA0CCR0 = HIGHEST_PWM
          ∧ LOWEST_PWM ≤ (init s).TA0CCR0 ∧ HIGHEST_PWM ≤ (init s).TA0CCR0
          ∧ (init s).TA0CCR1 = LOWEST_PWM)
      ∧ 1 ≤ STEP ∧ STEP ∣ HIGHEST_PWM - LOWEST_PWM
      ∧ (HIGHEST_PWM - LOWEST_PWM) / STEP = 900
      ∧ DIV_INTERVAL = ((rampDurationTicks / ((HIGHEST_PWM - LOWEST_PWM) / STEP) : Nat) : Int) := by
  refine ⟨by decide, by decide, fun s => ?_, by decide, by decide, by decide, by decide⟩
  have e : (init s).TA0CCR0 = HIGHEST_PWM := rfl
  have e1 : (init s).TA0CCR1 = LOWEST_PWM := rfl
  rw [e, e1]
  exact ⟨rfl, by decide, le_refl _, rfl⟩

/-! ## The strict guard and the closed form -/

/-- Unfolding the strict-guard run at its last invocation. -/
theorem runStrict_succ (n : Nat) (s : State) :
    runStrict (n + 1) s = Timer0Strict (runStrict n s) := by
  induction n generalizing s with
  | zero => rfl
  | succ m ih =>
    show runStrict (m + 1) (Timer0Strict s) = _
    rw [ih]
    rfl

/-- In the closed form the direction is `DOWN_CNT` whenever the duty value is
at the top. -/
theorem dirAfter_at_top (k : Nat) (h : dutyAfter k = 1000) : dirAfter k = DOWN_CNT := by
  unfold dutyAfter tri at h
  unfold dirAfter
  split_ifs at h ⊢ <;> first | rfl | omega

/-- The state (duty `HIGHEST_PWM`, direction `UP_CNT`) does not occur in the
run from startup. -/
theorem corner_not_in_run (n : Nat) :
    ¬ ((run n startup).TA0CCR1 = HIGHEST_PWM ∧ (run n startup).dir = UP_CNT) := by
  rw [run_startup_closed]
  rintro ⟨h1, h2⟩
  have h3 : dirAfter (n / 2001) = DOWN_CNT := dirAfter_at_top _ h1
  have h4 : dirAfter (n / 2001) = UP_CNT := h2
  rw [h3] at h4
  exact absurd h4 (by decide)

/-- Away from the state (duty `HIGHEST_PWM`, direction `UP_CNT`) the two
increment guards agree, and so do the two handlers. -/
theorem Timer0Strict_eq_off_corner (s : State)
    (h : ¬ (s.TA0CCR1 = HIGHEST_PWM ∧ s.dir = UP_CNT)) : Timer0Strict s = Timer0 s := by
  have hg : (s.TA0CCR1 < compiled.highest ∧ s.dir = UP_CNT)
      ↔ (s.TA0CCR1 ≤ compiled.highest ∧ s.dir = UP_CNT) := by
    have hH : compiled.highest = HIGHEST_PWM := rfl
    rw [hH]
    constructor
    · rintro ⟨a, b⟩
      exact ⟨Nat.le_of_lt a, b⟩
    · rintro ⟨a, b⟩
      refine ⟨Nat.lt_of_le_of_ne a (fun e => h ⟨e, b⟩), b⟩
  unfold Timer0Strict Timer0StrictWith Timer0 Timer0With
  simp only [hg]

/-- C15 (the non-strict increment guard): the state (`TA0CCR1 == HIGHEST_PWM`,
`dir == UP_CNT`) is not reached from startup; on every state of the run the
guard `TA0CCR1 <= HIGHEST_PWM && dir == UP_CNT` holds exactly when
`TA0CCR1 < HIGHEST_PWM && dir == UP_CNT` does; and the handler with `<` yields
the same state as the handler with `<=` after every number of invocations from
startup. -/
theorem strict_guard_same_run (n : Nat) :
    ¬ ((run n startup).TA0CCR1 = HIGHEST_PWM ∧ (run n startup).dir = UP_CNT)
      ∧ (((run n startup).TA0CCR1 ≤ HIGHEST_PWM ∧ (run n startup).dir = UP_CNT)
          ↔ ((run n startup).TA0CCR1 < HIGHEST_PWM ∧ (run n startup).dir = UP_CNT))
      ∧ runStrict n startup = run n startup := by
  refine ⟨corner_not_in_run n, ?_, ?_⟩
  · constructor
    · rintro ⟨a, b⟩
      exact ⟨Nat.lt_of_le_of_ne a (fun e => corner_not_in_run n ⟨e, b⟩), b⟩
    · rintro ⟨a, b⟩
      exact ⟨Nat.le_of_lt a, b⟩
  · induction n with
    | zero => rfl
    | succ m ih =>
      rw [runStrict_succ, ih, run_succ]
      exact Timer0Strict_eq_off_corner _ (corner_not_in_run m)

/-- C16 (closed form of the run): from startup the divisor counts `0 .. 2000`
and the step ticks are exactly the invocations numbered `2001 * k`, `k ≥ 1`;
the duty value after the `k`-th step tick is `100 + tri ((k - 1) % 1800)`; for
every `n ≥ 2001` the state after `n + 3601800` invocations equals the state
after `n` invocations; and the startup state is never reached again. -/
theorem closed_form_of_run :
    (∀ n : Nat, 0 ≤ (run n startup).div ∧ (run n startup).div ≤ 2000)
      ∧ (∀ n : Nat, isStepTick compiled (run n startup) ↔ ∃ k, 1 ≤ k ∧ n + 1 = 2001 * k)
      ∧ (∀ k : Nat, 1 ≤ k → stepTicks (2001 * k) startup = k
          ∧ (run (2001 * k) startup).TA0CCR1 = 100 + tri ((k - 1) % 1800))
      ∧ (∀ n : Nat, 2001 ≤ n → run (n + 3601800) startup = run n startup)
      ∧ (∀ n : Nat, 1 ≤ n → run n startup ≠ startup) := by
  refine ⟨fun n => ?_, fun n => ?_, fun k hk => ?_, fun n hn => ?_, fun n hn h => ?_⟩
  · rw [run_startup_closed]
    show (0 : Int) ≤ ((n % 2001 : Nat) : Int) ∧ ((n % 2001 : Nat) : Int) ≤ 2000
    omega
  · rw [isStepTick_run_startup]
    constructor
    · intro h
      exact ⟨(n + 1) / 2001, by omega, by omega⟩
    · rintro ⟨k, _, hk⟩
      omega
  · rw [stepTicks_startup_closed, run_startup_closed,
      Nat.mul_div_cancel_left _ (by decide : 0 < 2001)]
    refine ⟨rfl, ?_⟩
    obtain ⟨j, rfl⟩ : ∃ j, k = j + 1 := ⟨k - 1, by omega⟩
    show dutyAfter (j + 1) = _
    rw [dutyAfter_succ, Nat.add_sub_cancel]
  · rw [run_startup_closed, run_startup_closed]
    have e1 : (n + 3601800) / 2001 = n / 2001 + 1800 := by omega
    have e2 : (n + 3601800) % 2001 = n % 2001 := by omega
    have hk : 1 ≤ n / 2001 := by omega
    rw [e1, e2, dutyAfter_add_period _ hk, dirAfter_add_period _ hk]
  · rw [run_startup_closed] at h
    have hs : startup = ⟨1000, 100, 1, 0⟩ := by decide
    rw [hs] at h
    simp only [State.mk.injEq, true_and] at h
    obtain ⟨hduty, hdir, hdiv⟩ := h
    obtain ⟨k, hk2⟩ : ∃ k, n / 2001 = k + 1 := ⟨n / 2001 - 1, by omega⟩
    rw [hk2, dutyAfter_succ] at hduty
    rw [hk2, dirAfter_succ] at hdir
    unfold tri at hduty
    simp only [UP_CNT, DOWN_CNT] at hdir
    split_ifs at hduty hdir <;> omega

/-- Witness for `closed_form_of_run`: the 901st step tick is invocation
1,802,901 and leaves the duty value at `100 + tri 900 = 1000`; the state after
`2001 + 3601800` invocations is the state after 2001 invocations; one
invocation does not lead back to startup. -/
theorem closed_form_of_run_witness :
    (stepTicks (2001 * 901) startup = 901
        ∧ (run (2001 * 901) startup).TA0CCR1 = 100 + tri ((901 - 1) % 1800))
      ∧ run (2001 + 3601800) startup = run 2001 startup
      ∧ run 1 startup ≠ startup :=
  ⟨closed_form_of_run.2.2.1 901 (by decide),
    closed_form_of_run.2.2.2.1 2001 (le_refl _),
    closed_form_of_run.2.2.2.2 1 (le_refl _)⟩

/-! ## Step ticks of a parametrised configuration -/

/-- The last invocation of a step period is taken with the divisor at its
threshold. -/
theorem runWith_before_step (c : Config) (hdi : c.divInterval ≤ INT_MAX) (s : State)
    (h0 : s.div = 0) :
    runWith c c.divInterval.toNat s = { s with div := (c.divInterval.toNat : Int) }
      ∧ isStepTick c { s with div := (c.divInterval.toNat : Int) } := by
  constructor
  · rcases Int.lt_or_le c.divInterval 0 with hneg | hpos
    · have e : c.divInterval.toNat = 0 := by omega
      rw [e]
      show s = _
      cases s
      simp only [State.mk.injEq, true_and] at h0 ⊢
      simpa using h0
    · rw [runWith_nonstep c hdi _ s (by omega), h0]
      simp
  · show (c.divInterval.toNat : Int) ≥ c.divInterval
    omega

/-- A step period from a state with `div = 0` amounts to one step tick. -/
theorem runWith_stepPeriod (c : Config) (hdi : c.divInterval ≤ INT_MAX) (s : State)
    (h0 : s.div = 0) :
    runWith c (stepPeriod c) s
      = Timer0With c { s with div := (c.divInterval.toNat : Int) } := by
  unfold stepPeriod
  rw [runWith_succ, (runWith_before_step c hdi s h0).1]

/-- A step tick resets the divisor. -/
theorem Timer0With_div_of_step (c : Config) (s : State) (h : isStepTick c s) :
    (Timer0With c s).div = 0 := by
  have h2 : s.div ≥ c.divInterval := h
  unfold Timer0With
  rw [if_pos h2]

/-- After whole step periods from `div = 0` the divisor is 0 again. -/
theorem div_after_periods (c : Config) (hdi : c.divInterval ≤ INT_MAX) (s : State)
    (h0 : s.div = 0) (k : Nat) :
    (runWith c (k * stepPeriod c) s).div = 0 := by
  induction k with
  | zero => simpa [runWith] using h0
  | succ j ih =>
    rw [Nat.succ_mul, runWith_add, runWith_stepPeriod c hdi _ ih]
    exact Timer0With_div_of_step c _ (runWith_before_step c hdi _ ih).2

/-- The last invocation of every step period is a step tick. -/
theorem isStepTick_end_of_period (c : Config) (hdi : c.divInterval ≤ INT_MAX) (s : State)
    (h0 : s.div = 0) (k : Nat) :
    isStepTick c (runWith c (k * stepPeriod c + c.divInterval.toNat) s) := by
  rw [runWith_add, (runWith_before_step c hdi _ (div_after_periods c hdi s h0 k)).1]
  exact (runWith_before_step c hdi _ (div_after_periods c hdi s h0 k)).2

/-- A step tick taken below `HIGHEST` with direction `UP_CNT` adds `STEP` and
turns the direction exactly when it arrives at `HIGHEST`. -/
theorem step_up (c : Config) (s : State) (hstep : isStepTick c s) (hdir : s.dir = UP_CNT)
    (hS : 1 ≤ c.step) (hL : c.lowest ≤ s.TA0CCR1) (hv : s.TA0CCR1 < c.highest)
    (hw : s.TA0CCR1 + c.step < REG_MOD) :
    Timer0With c s
      = ⟨s.TA0CCR0, s.TA0CCR1 + c.step,
          if s.TA0CCR1 + c.step = c.highest then DOWN_CNT else UP_CNT, 0⟩ := by
  have h2 : s.div ≥ c.divInterval := hstep
  have hne : ¬ (s.TA0CCR1 > c.lowest ∧ s.dir = DOWN_CNT) := by
    rw [hdir]
    rintro ⟨_, h⟩
    exact absurd h (by decide)
  have hup : s.TA0CCR1 ≤ c.highest ∧ s.dir = UP_CNT := ⟨Nat.le_of_lt hv, hdir⟩
  have hval : (s.TA0CCR1 + c.step) % REG_MOD = s.TA0CCR1 + c.step := Nat.mod_eq_of_lt hw
  have hnl : ¬ s.TA0CCR1 + c.step = c.lowest := by omega
  unfold Timer0With
  rw [if_pos h2]
  dsimp only
  rw [if_neg hne, if_pos hup, hval, if_neg hnl, hdir]

/-- A step tick taken above `LOWEST`, at or below `HIGHEST`, with direction
`DOWN_CNT` subtracts `STEP` and turns the direction exactly when it arrives at
`LOWEST`. -/
theorem step_down (c : Config) (s : State) (hstep : isStepTick c s) (hdir : s.dir = DOWN_CNT)
    (hS : 1 ≤ c.step) (hL : c.lowest + c.step ≤ s.TA0CCR1) (hv : s.TA0CCR1 ≤ c.highest)
    (hw : c.highest < REG_MOD) :
    Timer0With c s
      = ⟨s.TA0CCR0, s.TA0CCR1 - c.step,
          if s.TA0CCR1 - c.step = c.lowest then UP_CNT else DOWN_CNT, 0⟩ := by
  have h2 : s.div ≥ c.divInterval := hstep
  have hdown : s.TA0CCR1 > c.lowest ∧ s.dir = DOWN_CNT := ⟨by omega, hdir⟩
  have hval : (s.TA0CCR1 + (REG_MOD - c.step % REG_MOD)) % REG_MOD = s.TA0CCR1 - c.step := by
    unfold REG_MOD at hw ⊢
    omega
  have hnh : ¬ s.TA0CCR1 - c.step = c.highest := by omega
  unfold Timer0With
  rw [if_pos h2]
  dsimp only
  rw [if_pos hdown, hval, if_neg hnh, hdir]

/-- A step tick taken at `LOWEST` with direction `DOWN_CNT` keeps the duty
value and turns the direction to `UP_CNT`. -/
theorem step_first (c : Config) (s : State) (hstep : isStepTick c s) (hdir : s.dir = DOWN_CNT)
    (hv : s.TA0CCR1 = c.lowest) (hLH : c.lowest < c.highest) :
    Timer0With c s = ⟨s.TA0CCR0, c.lowest, UP_CNT, 0⟩ := by
  have h2 : s.div ≥ c.divInterval := hstep
  have hne : ¬ (s.TA0CCR1 > c.lowest ∧ s.dir = DOWN_CNT) := by
    rintro ⟨h, _⟩
    omega
  have hnu : ¬ (s.TA0CCR1 ≤ c.highest ∧ s.dir = UP_CNT) := by
    rw [hdir]
    rintro ⟨_, h⟩
    exact absurd h (by decide)
  have hnh : ¬ s.TA0CCR1 = c.highest := by omega
  unfold Timer0With
  rw [if_pos h2]
  dsimp only
  rw [if_neg hne, if_neg hnu, if_pos hv, if_neg hnh, hv]

/-- Above `HIGHEST` with direction `UP_CNT` no invocation changes the duty
value or the direction: the ramp is frozen. -/
theorem frozen_step (c : Config) (s : State) (hLH : c.lowest < c.highest)
    (hv : c.highest < s.TA0CCR1) (hdir : s.dir = UP_CNT) :
    (Timer0With c s).TA0CCR1 = s.TA0CCR1 ∧ (Timer0With c s).dir = UP_CNT := by
  have hne : ¬ (s.TA0CCR1 > c.lowest ∧ s.dir = DOWN_CNT) := by
    rw [hdir]
    rintro ⟨_, h⟩
    exact absurd h (by decide)
  have hnu : ¬ (s.TA0CCR1 ≤ c.highest ∧ s.dir = UP_CNT) := by
    rintro ⟨h, _⟩
    omega
  have hnl : ¬ s.TA0CCR1 = c.lowest := by omega
  have hnh : ¬ s.TA0CCR1 = c.highest := by omega
  unfold Timer0With
  by_cases h2 : s.div ≥ c.divInterval
  · rw [if_pos h2]
    dsimp only
    rw [if_neg hne, if_neg hnu, if_neg hnl, if_neg hnh]
    exact ⟨rfl, hdir⟩
  · rw [if_neg h2]
    exact ⟨rfl, hdir⟩

/-- A frozen state stays frozen for every number of invocations. -/
theorem frozen_run (c : Config) (s : State) (hLH : c.lowest < c.highest)
    (hv : c.highest < s.TA0CCR1) (hdir : s.dir = UP_CNT) (n : Nat) :
    (runWith c n s).TA0CCR1 = s.TA0CCR1 ∧ (runWith c n s).dir = UP_CNT := by
  induction n with
  | zero => exact ⟨rfl, hdir⟩
  | succ m ih =>
    rw [runWith_succ]
    have h := frozen_step c (runWith c m s) hLH (by rw [ih.1]; exact hv) ih.2
    exact ⟨h.1.trans ih.1, h.2⟩

/-- Rising ramp: from `LOWEST + a * STEP` with direction `UP_CNT` and `div = 0`,
as long as the value before the last step is below `HIGHEST`, `j + 1` step
periods add `(j + 1) * STEP`; the direction turns exactly when the value
arrives at `HIGHEST`. -/
theorem rising_ramp (c : Config) (hdi : c.divInterval ≤ INT_MAX) (hS : 1 ≤ c.step)
    (j : Nat) :
    ∀ (a : Nat) (s : State), s.div = 0 → s.dir = UP_CNT →
      s.TA0CCR1 = c.lowest + a * c.step →
      c.lowest + (a + (j + 1)) * c.step < c.highest + c.step →
      c.lowest + (a + (j + 1)) * c.step < REG_MOD →
      runWith c ((j + 1) * stepPeriod c) s
        = ⟨s.TA0CCR0, c.lowest + (a + (j + 1)) * c.step,
            if c.lowest + (a + (j + 1)) * c.step = c.highest then DOWN_CNT else UP_CNT, 0⟩ := by
  induction j with
  | zero =>
    intro a s h0 hdir hv hlt hw
    simp only [Nat.add_mul, Nat.one_mul, Nat.zero_add] at hlt hw ⊢
    rw [runWith_stepPeriod c hdi s h0,
      step_up c _ (runWith_before_step c hdi s h0).2 hdir hS (by show c.lowest ≤ s.TA0CCR1; omega)
        (by show s.TA0CCR1 < c.highest; omega) (by show s.TA0CCR1 + c.step < REG_MOD; omega)]
    show (⟨s.TA0CCR0, s.TA0CCR1 + c.step, _, 0⟩ : State) = _
    rw [hv, Nat.add_assoc]
  | succ i ih =>
    intro a s h0 hdir hv hlt hw
    have e : (i + 1 + 1) * stepPeriod c = stepPeriod c + (i + 1) * stepPeriod c := by
      rw [Nat.succ_mul, Nat.add_comm]
    have hi : 0 ≤ i * c.step := Nat.zero_le _
    have hlt2 := hlt
    have hw2 := hw
    simp only [Nat.add_mul, Nat.one_mul] at hlt2 hw2
    rw [e, runWith_add, runWith_stepPeriod c hdi s h0,
      step_up c _ (runWith_before_step c hdi s h0).2 hdir hS (by show c.lowest ≤ s.TA0CCR1; omega)
        (by show s.TA0CCR1 < c.highest; omega) (by show s.TA0CCR1 + c.step < REG_MOD; omega)]
    have hnh : ¬ s.TA0CCR1 + c.step = c.highest := by omega
    have hs1 : ({ s with div := (c.divInterval.toNat : Int) } : State).TA0CCR1 = s.TA0CCR1 := rfl
    rw [hs1, if_neg hnh]
    have e2 : a + (i + 1 + 1) = (a + 1) + (i + 1) := by omega
    rw [e2]
    exact ih (a + 1) ⟨s.TA0CCR0, s.TA0CCR1 + c.step, UP_CNT, 0⟩ rfl rfl
      (by show s.TA0CCR1 + c.step = c.lowest + (a + 1) * c.step
          rw [hv, Nat.add_mul, Nat.one_mul, Nat.add_assoc])
      (by rw [← e2]; exact hlt) (by rw [← e2]; exact hw)

/-- Falling ramp: from `LOWEST + (j + 1) * STEP ≤ HIGHEST` with direction
`DOWN_CNT` and `div = 0`, `j + 1` step periods lead to `LOWEST` with direction
`UP_CNT`. -/
theorem falling_ramp (c : Config) (hdi : c.divInterval ≤ INT_MAX) (hS : 1 ≤ c.step)
    (hw : c.highest < REG_MOD) (j : Nat) :
    ∀ (s : State), s.div = 0 → s.dir = DOWN_CNT →
      s.TA0CCR1 = c.lowest + (j + 1) * c.step → s.TA0CCR1 ≤ c.highest →
      runWith c ((j + 1) * stepPeriod c) s = ⟨s.TA0CCR0, c.lowest, UP_CNT, 0⟩ := by
  induction j with
  | zero =>
    intro s h0 hdir hv hle
    simp only [Nat.add_mul, Nat.one_mul, Nat.zero_mul, Nat.zero_add] at hv ⊢
    rw [runWith_stepPeriod c hdi s h0,
      step_down c _ (runWith_before_step c hdi s h0).2 hdir hS
        (by show c.lowest + c.step ≤ s.TA0CCR1; omega) hle hw]
    have hs1 : ({ s with div := (c.divInterval.toNat : Int) } : State).TA0CCR1 = s.TA0CCR1 := rfl
    have hl : s.TA0CCR1 - c.step = c.lowest := by omega
    rw [hs1, if_pos hl, hl]
  | succ i ih =>
    intro s h0 hdir hv hle
    have e : (i + 1 + 1) * stepPeriod c = stepPeriod c + (i + 1) * stepPeriod c := by
      rw [Nat.succ_mul, Nat.add_comm]
    have hv2 : s.TA0CCR1 = c.lowest + ((i + 1) * c.step + c.step) := by
      rw [hv, Nat.succ_mul]
    have hpos : c.step ≤ (i + 1) * c.step := Nat.le_mul_of_pos_left _ (Nat.succ_pos i)
    rw [e, runWith_add, runWith_stepPeriod c hdi s h0,
      step_down c _ (runWith_before_step c hdi s h0).2 hdir hS
        (by show c.lowest + c.step ≤ s.TA0CCR1; omega) hle hw]
    have hs1 : ({ s with div := (c.divInterval.toNat : Int) } : State).TA0CCR1 = s.TA0CCR1 := rfl
    have hnl : ¬ s.TA0CCR1 - c.step = c.lowest := by omega
    rw [hs1, if_neg hnl]
    exact ih ⟨s.TA0CCR0, s.TA0CCR1 - c.step, DOWN_CNT, 0⟩ rfl rfl
      (by show s.TA0CCR1 - c.step = c.lowest + (i + 1) * c.step; omega)
      (by show s.TA0CCR1 - c.step ≤ c.highest; omega)

/-- The startup state of a configuration whose constants fit the register. -/
theorem startupWith_eq (c : Config) (hLH : c.lowest < c.highest) (hw : c.highest < REG_MOD) :
    startupWith c = ⟨c.highest, c.lowest, DOWN_CNT, 0⟩ := by
  show (⟨c.highest % REG_MOD, c.lowest % REG_MOD, DOWN_CNT, 0⟩ : State) = _
  rw [Nat.mod_eq_of_lt hw, Nat.mod_eq_of_lt (Nat.lt_trans hLH hw)]

/-- The first step period from startup only turns the direction. -/
theorem first_period (c : Config) (hdi : c.divInterval ≤ INT_MAX)
    (hLH : c.lowest < c.highest) (hw : c.highest < REG_MOD) :
    runWith c (stepPeriod c) (startupWith c) = ⟨c.highest, c.lowest, UP_CNT, 0⟩ := by
  rw [startupWith_eq c hLH hw, runWith_stepPeriod c hdi _ rfl,
    step_first c _ (runWith_before_step c hdi ⟨c.highest, c.lowest, DOWN_CNT, 0⟩ rfl).2 rfl rfl hLH]

/-- When `STEP` does not divide the range, no grid value `LOWEST + a * STEP`
equals `HIGHEST`. -/
theorem grid_misses_highest (c : Config) (hLH : c.lowest < c.highest)
    (hnd : ¬ c.step ∣ c.highest - c.lowest) (a : Nat) :
    c.lowest + a * c.step ≠ c.highest := by
  intro h
  apply hnd
  refine ⟨a, ?_⟩
  rw [Nat.mul_comm]
  omega

/-- One invocation when `STEP` does not divide the range: the duty value stays
on the grid and below `HIGHEST + STEP`, the direction is `UP_CNT` unless the
state is still (`LOWEST`, `DOWN_CNT`), a direction `UP_CNT` is kept, and a step
tick always leaves the direction `UP_CNT`. -/
theorem offgrid_step (c : Config) (hLH : c.lowest < c.highest) (hS : 1 ≤ c.step)
    (hnd : ¬ c.step ∣ c.highest - c.lowest) (h16 : c.highest + c.step ≤ REG_MOD) (s : State)
    (hinv : ∃ a, s.TA0CCR1 = c.lowest + a * c.step ∧ s.TA0CCR1 < c.highest + c.step
      ∧ (s.dir = UP_CNT ∨ (s.dir = DOWN_CNT ∧ a = 0))) :
    (∃ a, (Timer0With c s).TA0CCR1 = c.lowest + a * c.step
        ∧ (Timer0With c s).TA0CCR1 < c.highest + c.step
        ∧ ((Timer0With c s).dir = UP_CNT ∨ ((Timer0With c s).dir = DOWN_CNT ∧ a = 0)))
      ∧ (s.dir = UP_CNT → (Timer0With c s).dir = UP_CNT)
      ∧ (isStepTick c s → (Timer0With c s).dir = UP_CNT) := by
  obtain ⟨a, hv, hlt, hd⟩ := hinv
  have hne : s.TA0CCR1 ≠ c.highest := by
    rw [hv]
    exact grid_misses_highest c hLH hnd a
  by_cases hstep : isStepTick c s
  · rcases hd with hup | ⟨hdown, ha⟩
    · rcases Nat.lt_or_ge s.TA0CCR1 c.highest with hlo | hhi
      · have e := step_up c s hstep hup hS (by omega) hlo (by omega)
        have hnh : ¬ s.TA0CCR1 + c.step = c.highest := by
          rw [hv, Nat.add_assoc, ← Nat.succ_mul]
          exact grid_misses_highest c hLH hnd (a + 1)
        rw [if_neg hnh] at e
        rw [e]
        refine ⟨⟨a + 1, ?_, ?_, Or.inl rfl⟩, fun _ => rfl, fun _ => rfl⟩
        · show s.TA0CCR1 + c.step = c.lowest + (a + 1) * c.step
          rw [hv, Nat.succ_mul, Nat.add_assoc]
        · show s.TA0CCR1 + c.step < c.highest + c.step
          omega
      · have hgt : c.highest < s.TA0CCR1 := Nat.lt_of_le_of_ne hhi (Ne.symm hne)
        have e := frozen_step c s hLH hgt hup
        rw [e.1, e.2]
        exact ⟨⟨a, hv, hlt, Or.inl rfl⟩, fun _ => rfl, fun _ => rfl⟩
    · have hvl : s.TA0CCR1 = c.lowest := by rw [hv, ha]; omega
      have e := step_first c s hstep hdown hvl hLH
      rw [e]
      refine ⟨⟨0, ?_, ?_, Or.inl rfl⟩, fun _ => rfl, fun _ => rfl⟩
      · show c.lowest = c.lowest + 0 * c.step
        omega
      · show c.lowest < c.highest + c.step
        omega
  · have hn : ¬ s.div ≥ c.divInterval := hstep
    have e : Timer0With c s = { s with div := incInt16 s.div } := by
      unfold Timer0With
      rw [if_neg hn]
    rw [e]
    exact ⟨⟨a, hv, hlt, hd⟩, fun h => h, fun h => absurd h hstep⟩

/-- The run from startup when `STEP` does not divide the range: the duty value
never equals `HIGHEST`, stays in `LOWEST .. HIGHEST + STEP - 1`, and the
direction is `UP_CNT` from the first step tick on. -/
theorem offgrid_invariant (c : Config) (hLH : c.lowest < c.highest) (hS : 1 ≤ c.step)
    (hnd : ¬ c.step ∣ c.highest - c.lowest) (h16 : c.highest + c.step ≤ REG_MOD) (n : Nat) :
    (∃ a, (runWith c n (startupWith c)).TA0CCR1 = c.lowest + a * c.step
        ∧ (runWith c n (startupWith c)).TA0CCR1 < c.highest + c.step
        ∧ ((runWith c n (startupWith c)).dir = UP_CNT
            ∨ ((runWith c n (startupWith c)).dir = DOWN_CNT ∧ a = 0)))
      ∧ (1 ≤ stepTicksWith c n (startupWith c) → (runWith c n (startupWith c)).dir = UP_CNT) := by
  induction n with
  | zero =>
    rw [startupWith_eq c hLH (by omega)]
    refine ⟨⟨0, ?_, ?_, Or.inr ⟨rfl, rfl⟩⟩, fun h => ?_⟩
    · show c.lowest = c.lowest + 0 * c.step
      omega
    · show c.lowest < c.highest + c.step
      omega
    · exact absurd (show 1 ≤ 0 from h) (by decide)
  | succ m ih =>
    have hs := offgrid_step c hLH hS hnd h16 _ ih.1
    rw [runWith_succ, stepTicksWith_succ]
    refine ⟨hs.1, fun h => ?_⟩
    by_cases hstep : isStepTick c (runWith c m (startupWith c))
    · exact hs.2.2 hstep
    · rw [if_neg hstep] at h
      exact hs.2.1 (ih.2 h)

/-- When `HIGHEST = LOWEST + b * STEP`, the run from startup is at
(`HIGHEST`, `DOWN_CNT`) after `b + 1` step periods and back at
(`LOWEST`, `UP_CNT`) after `2 * b + 1` step periods. -/
theorem reversal_on_grid (c : Config) (hdi : c.divInterval ≤ INT_MAX)
    (hLH : c.lowest < c.highest) (hS : 1 ≤ c.step)
    (hw : c.highest < REG_MOD) (b : Nat) (hb : c.highest = c.lowest + b * c.step) :
    runWith c ((b + 1) * stepPeriod c) (startupWith c) = ⟨c.highest, c.highest, DOWN_CNT, 0⟩
      ∧ runWith c ((2 * b + 1) * stepPeriod c) (startupWith c)
          = ⟨c.highest, c.lowest, UP_CNT, 0⟩ := by
  obtain ⟨j, rfl⟩ : ∃ j, b = j + 1 := by
    refine ⟨b - 1, ?_⟩
    rcases Nat.eq_zero_or_pos b with h0 | h0
    · rw [h0] at hb
      omega
    · omega
  have htop : runWith c ((j + 1 + 1) * stepPeriod c) (startupWith c)
      = ⟨c.highest, c.highest, DOWN_CNT, 0⟩ := by
    have e : (j + 1 + 1) * stepPeriod c = stepPeriod c + (j + 1) * stepPeriod c := by
      rw [Nat.succ_mul, Nat.add_comm]
    rw [e, runWith_add, first_period c hdi hLH hw,
      rising_ramp c hdi hS j 0 ⟨c.highest, c.lowest, UP_CNT, 0⟩ rfl rfl
        (by show c.lowest = c.lowest + 0 * c.step; omega)
        (by rw [Nat.zero_add, ← hb]; omega) (by rw [Nat.zero_add, ← hb]; exact hw)]
    rw [Nat.zero_add, ← hb, if_pos rfl]
  refine ⟨htop, ?_⟩
  have e : (2 * (j + 1) + 1) * stepPeriod c
      = (j + 1 + 1) * stepPeriod c + (j + 1) * stepPeriod c := by
    rw [← Nat.add_mul]
    congr 1
    omega
  rw [e, runWith_add, htop]
  exact falling_ramp c hdi hS hw j ⟨c.highest, c.highest, DOWN_CNT, 0⟩ rfl rfl hb (le_refl _)

/-- When `STEP` does not divide the range, the run from startup reaches a duty
value above `HIGHEST` with direction `UP_CNT` and keeps both from then on. -/
theorem freeze_off_grid (c : Config) (hdi : c.divInterval ≤ INT_MAX)
    (hLH : c.lowest < c.highest) (hS : 1 ≤ c.step)
    (hnd : ¬ c.step ∣ c.highest - c.lowest) (h16 : c.highest + c.step ≤ REG_MOD) :
    ∃ N, c.highest < (runWith c N (startupWith c)).TA0CCR1
      ∧ ∀ n, N ≤ n →
        (runWith c n (startupWith c)).TA0CCR1 = (runWith c N (startupWith c)).TA0CCR1
          ∧ (runWith c n (startupWith c)).dir = UP_CNT := by
  have hmod : (c.highest - c.lowest) % c.step ≠ 0 := fun h => hnd (Nat.dvd_of_mod_eq_zero h)
  have hlt : (c.highest - c.lowest) % c.step < c.step := Nat.mod_lt _ hS
  have hdm := Nat.div_add_mod (c.highest - c.lowest) c.step
  rw [Nat.mul_comm] at hdm
  have hq : (0 + ((c.highest - c.lowest) / c.step + 1)) * c.step
      = (c.highest - c.lowest) / c.step * c.step + c.step := by
    rw [Nat.zero_add, Nat.succ_mul]
  have hrun : runWith c (stepPeriod c + ((c.highest - c.lowest) / c.step + 1) * stepPeriod c)
      (startupWith c)
      = ⟨c.highest, c.lowest + (0 + ((c.highest - c.lowest) / c.step + 1)) * c.step,
          UP_CNT, 0⟩ := by
    rw [runWith_add, first_period c hdi hLH (by omega),
      rising_ramp c hdi hS _ 0 ⟨c.highest, c.lowest, UP_CNT, 0⟩ rfl rfl
        (by show c.lowest = c.lowest + 0 * c.step; omega)
        (by rw [hq]; omega) (by rw [hq]; omega)]
    have hnh : ¬ c.lowest + (0 + ((c.highest - c.lowest) / c.step + 1)) * c.step
        = c.highest := by
      rw [hq]
      omega
    rw [if_neg hnh]
  refine ⟨stepPeriod c + ((c.highest - c.lowest) / c.step + 1) * stepPeriod c, ?_,
    fun n hn => ?_⟩
  · rw [hrun]
    show c.highest < c.lowest + (0 + ((c.highest - c.lowest) / c.step + 1)) * c.step
    rw [hq]
    omega
  · obtain ⟨k, rfl⟩ : ∃ k, n = stepPeriod c
        + ((c.highest - c.lowest) / c.step + 1) * stepPeriod c + k :=
      ⟨n - (stepPeriod c + ((c.highest - c.lowest) / c.step + 1) * stepPeriod c), by omega⟩
    rw [runWith_add]
    refine frozen_run c _ hLH ?_ ?_ k
    · rw [hrun]
      show c.highest < c.lowest + (0 + ((c.highest - c.lowest) / c.step + 1)) * c.step
      rw [hq]
      omega
    · rw [hrun]

/-- C13, counterexample: with `LOWEST = 100`, `HIGHEST = 103`, `STEP = 2`
(which does not divide 3) no state of the run from startup has the duty value
equal to `HIGHEST`, so the reversal at `HIGHEST` is never reached. -/
theorem no_reversal_for_odd_step :
    oddStepConfig.lowest < oddStepConfig.highest ∧ 1 ≤ oddStepConfig.step
      ∧ ¬ oddStepConfig.step ∣ oddStepConfig.highest - oddStepConfig.lowest
      ∧ ¬ ∃ n : Nat,
          (runWith oddStepConfig n (startupWith oddStepConfig)).TA0CCR1 = oddStepConfig.highest
            ∧ (runWith oddStepConfig n (startupWith oddStepConfig)).dir = DOWN_CNT := by
  refine ⟨by decide, by decide, by decide, ?_⟩
  rintro ⟨n, h, _⟩
  obtain ⟨⟨a, ha, _, _⟩, _⟩ :=
    offgrid_invariant oddStepConfig (by decide) (by decide) (by decide) (by decide) n
  rw [ha] at h
  exact grid_misses_highest oddStepConfig (by decide) (by decide) a h

/-- C13, amended (reversal exactly when `STEP` divides the range): with the
handler's constants as parameters, `LOWEST < HIGHEST < 2 ^ 16`, `STEP ≥ 1` and
`DIV_INTERVAL ≤ INT_MAX = 32767`, so that the 16-bit divisor reaches it.
If `STEP` evenly divides `HIGHEST - LOWEST`, the run from startup reaches a
step tick after which the duty value equals `HIGHEST` and the direction is
`DOWN_CNT`, and a later one after which the duty value equals `LOWEST` and the
direction is `UP_CNT`.  If `STEP` does not divide `HIGHEST - LOWEST` (and
`HIGHEST + STEP ≤ 2 ^ 16`), the duty value never equals `HIGHEST`, it stays in
`LOWEST .. HIGHEST + STEP - 1`, the direction is `UP_CNT` from the first step
tick on, and from some invocation on the duty value keeps one value above
`HIGHEST`: nothing clamps it and the ramp does not reverse. -/
theorem reversal_only_when_step_divides (c : Config) (hdi : c.divInterval ≤ INT_MAX)
    (hLH : c.lowest < c.highest) (hS : 1 ≤ c.step) (hw : c.highest < REG_MOD) :
    (c.step ∣ c.highest - c.lowest →
        ∃ m1 m2 : Nat, m1 < m2
          ∧ isStepTick c (runWith c m1 (startupWith c))
          ∧ runWith c (m1 + 1) (startupWith c) = ⟨c.highest, c.highest, DOWN_CNT, 0⟩
          ∧ isStepTick c (runWith c m2 (startupWith c))
          ∧ runWith c (m2 + 1) (startupWith c) = ⟨c.highest, c.lowest, UP_CNT, 0⟩)
      ∧ (¬ c.step ∣ c.highest - c.lowest → c.highest + c.step ≤ REG_MOD →
          (∀ n : Nat,
            (runWith c n (startupWith c)).TA0CCR1 ≠ c.highest
              ∧ c.lowest ≤ (runWith c n (startupWith c)).TA0CCR1
              ∧ (runWith c n (startupWith c)).TA0CCR1 < c.highest + c.step
              ∧ (1 ≤ stepTicksWith c n (startupWith c) →
                  (runWith c n (startupWith c)).dir = UP_CNT))
            ∧ ∃ N : Nat, c.highest < (runWith c N (startupWith c)).TA0CCR1
              ∧ ∀ n : Nat, N ≤ n →
                (runWith c n (startupWith c)).TA0CCR1
                    = (runWith c N (startupWith c)).TA0CCR1
                  ∧ (runWith c n (startupWith c)).dir = UP_CNT) := by
  constructor
  · rintro ⟨b, hb⟩
    have hb2 : c.highest = c.lowest + b * c.step := by
      rw [Nat.mul_comm b, ← hb]
      omega
    obtain ⟨h1, h2⟩ := reversal_on_grid c hdi hLH hS hw b hb2
    have hP : stepPeriod c = c.divInterval.toNat + 1 := rfl
    have h0 : (startupWith c).div = 0 := rfl
    have e1 : b * stepPeriod c + c.divInterval.toNat + 1 = (b + 1) * stepPeriod c := by
      rw [Nat.add_mul, Nat.one_mul]
      omega
    have e2 : 2 * b * stepPeriod c + c.divInterval.toNat + 1 = (2 * b + 1) * stepPeriod c := by
      rw [Nat.add_mul, Nat.one_mul]
      omega
    have hbpos : 1 ≤ b := by
      rcases Nat.eq_zero_or_pos b with hz | hz
      · rw [hz] at hb2
        omega
      · exact hz
    have hmono : b * stepPeriod c < 2 * b * stepPeriod c := by
      have : 1 * stepPeriod c ≤ b * stepPeriod c := Nat.mul_le_mul_right _ hbpos
      rw [Nat.mul_assoc, Nat.two_mul]
      omega
    refine ⟨b * stepPeriod c + c.divInterval.toNat, 2 * b * stepPeriod c + c.divInterval.toNat,
      by omega, isStepTick_end_of_period c hdi _ h0 b, ?_, isStepTick_end_of_period c hdi _ h0 (2 * b), ?_⟩
    · rw [e1]
      exact h1
    · rw [e2]
      exact h2
  · intro hnd h16
    refine ⟨fun n => ?_, freeze_off_grid c hdi hLH hS hnd h16⟩
    obtain ⟨⟨a, ha, hlt, _⟩, hdir⟩ := offgrid_invariant c hLH hS hnd h16 n
    refine ⟨?_, ?_, hlt, hdir⟩
    · rw [ha]
      exact grid_misses_highest c hLH hnd a
    · rw [ha]
      exact Nat.le_add_right _ _

/-- Witness for `reversal_only_when_step_divides`: `STEP = 9` divides
`1000 - 100` and the reversal is reached; `STEP = 2` does not divide
`103 - 100` and the duty value ends above 103. -/
theorem reversal_only_when_step_divides_witness :
    (∃ m1 m2 : Nat, m1 < m2
        ∧ isStepTick nineStepConfig (runWith nineStepConfig m1 (startupWith nineStepConfig))
        ∧ runWith nineStepConfig (m1 + 1) (startupWith nineStepConfig)
            = ⟨nineStepConfig.highest, nineStepConfig.highest, DOWN_CNT, 0⟩
        ∧ isStepTick nineStepConfig (runWith nineStepConfig m2 (startupWith nineStepConfig))
        ∧ runWith nineStepConfig (m2 + 1) (startupWith nineStepConfig)
            = ⟨nineStepConfig.highest, nineStepConfig.lowest, UP_CNT, 0⟩)
      ∧ ∃ N : Nat,
          oddStepConfig.highest < (runWith oddStepConfig N (startupWith oddStepConfig)).TA0CCR1
            ∧ ∀ n : Nat, N ≤ n →
              (runWith oddStepConfig n (startupWith oddStepConfig)).TA0CCR1
                  = (runWith oddStepConfig N (startupWith oddStepConfig)).TA0CCR1
                ∧ (runWith oddStepConfig n (startupWith oddStepConfig)).dir = UP_CNT :=
  ⟨(reversal_only_when_step_divides nineStepConfig (by decide) (by decide) (by decide)
      (by decide)).1 (by decide),
    ((reversal_only_when_step_divides oddStepConfig (by decide) (by decide) (by decide)
      (by decide)).2 (by decide) (by decide)).2⟩

/-! ## The step rule on the states the handler meets -/

/-- C10, amended (step-tick update rule): for every state with
`LOWEST_PWM ≤ TA0CCR1 ≤ HIGHEST_PWM` and either direction, other than the state
with the duty value at `HIGHEST_PWM` and direction `UP_CNT`, a step tick of
`Timer0` changes the duty value exactly as the specified rule does; that state
does not occur in the run from startup, so every step tick of the run follows
the rule. -/
theorem step_rule_off_corner :
    (∀ s : State, isStepTick compiled s → LOWEST_PWM ≤ s.TA0CCR1 → s.TA0CCR1 ≤ HIGHEST_PWM →
        ¬ (s.TA0CCR1 = HIGHEST_PWM ∧ s.dir = UP_CNT) →
        (Timer0 s).TA0CCR1 = specStepDuty compiled s.TA0CCR1 s.dir)
      ∧ (∀ n : Nat, isStepTick compiled (run n startup) →
          ¬ ((run n startup).TA0CCR1 = HIGHEST_PWM ∧ (run n startup).dir = UP_CNT)
            ∧ (run (n + 1) startup).TA0CCR1
                = specStepDuty compiled (run n startup).TA0CCR1 (run n startup).dir) := by
  refine ⟨fun s hs h1 h2 hc => step_duty_eq_spec_off_corner s hs h1 h2 hc, fun n hs => ?_⟩
  refine ⟨corner_not_in_run n, ?_⟩
  rw [run_succ]
  exact step_duty_eq_spec_off_corner _ hs (run_startup_duty_bounds n).1
    (run_startup_duty_bounds n).2 (corner_not_in_run n)

/-- Witness for `step_rule_off_corner`: the step tick taken at duty 999 with
direction `UP_CNT` gives 1000, the one taken at `HIGHEST_PWM` with direction
`DOWN_CNT` gives 999, and the second step tick of the run from startup
(invocation 4002) follows the rule. -/
theorem step_rule_off_corner_witness :
    (Timer0 ⟨1000, 999, UP_CNT, 2000⟩).TA0CCR1 = specStepDuty compiled 999 UP_CNT
      ∧ (Timer0 ⟨1000, HIGHEST_PWM, DOWN_CNT, 2000⟩).TA0CCR1
          = specStepDuty compiled HIGHEST_PWM DOWN_CNT
      ∧ (run (4001 + 1) startup).TA0CCR1
          = specStepDuty compiled (run 4001 startup).TA0CCR1 (run 4001 startup).dir :=
  ⟨step_rule_off_corner.1 ⟨1000, 999, UP_CNT, 2000⟩ (by decide) (by decide) (by decide)
      (by decide),
    step_rule_off_corner.1 ⟨1000, HIGHEST_PWM, DOWN_CNT, 2000⟩ (by decide) (by decide)
      (by decide) (by decide),
    (step_rule_off_corner.2 4001 ((isStepTick_run_startup 4001).mpr rfl)).2⟩

end BreathingPwm
